/-
A verification development for the `iitech3` newsletter tool
(`src/document.py`, `src/exceptions.py`).

The Python code is shallowly embedded: pure helper functions become Lean
functions on `String` / `List Char`; the BeautifulSoup tree operations that
`review` performs on `a` elements are modelled as list transformations over
`ATag` records; fallible Python code (attribute access, `KeyError`,
`TypeError`, the custom `UnknownTransform`) returns `Except PyError`.
Network and standard-library collaborators (the webpage/email lookup cache,
`requests.compat` URL helpers, image fetching) are supplied as an explicit
environment `Env`, mirroring the spec's treatment of them as black-box
capabilities.

The regular expressions of `document.py` are embedded as concrete character
list functions; each function's doc comment names the regex it models.
-/
import Mathlib

namespace IITech3

/-! ## Python value and error model -/

/-- A Python value as it appears in transform specifications: strings,
integers, lists, and string-keyed dicts (ordered, unique keys). -/
inductive PyVal where
  | str (s : String)
  | int (n : Int)
  | list (xs : List PyVal)
  | dict (xs : List (String × PyVal))
deriving Repr

/-- Python exceptions that the embedded code can raise.
`typeError` models `TypeError` (e.g. `set + set`, indexing a non-dict),
`keyError` models `KeyError`, `attributeError` models `AttributeError`
(attribute access on `None` or a value lacking the attribute), and
`unknownTransform` models `exceptions.UnknownTransform`. -/
inductive PyError where
  | typeError
  | keyError (k : String)
  | attributeError
  | unknownTransform (desc : PyVal) (allowed : List String)
deriving Repr

/-- Lookup in a Python dict (association list, first binding wins). -/
def pyGet (d : List (String × PyVal)) (k : String) : Option PyVal :=
  match d with
  | [] => none
  | (k', v) :: rest => if k' == k then some v else pyGet rest k

/-! ## Character and string helpers (models of the `re` patterns) -/

/-- Python's `\s` character class, restricted to ASCII. -/
def isPySpace (c : Char) : Bool :=
  c == ' ' || c == '\t' || c == '\n' || c == '\r' || c == '\x0b' || c == '\x0c'

/-- `re.search(r'^\s*$', s) is not None`: `s` consists only of whitespace. -/
def isBlankText (s : String) : Bool :=
  s.toList.all isPySpace

/-- `[a-z0-9]` under `re.I`: an ASCII letter or digit. -/
def isAsciiAlnumCI (c : Char) : Bool :=
  c.isAlpha || c.isDigit

/-- Strip the case-insensitive prefix `pat` (given in lowercase) from `s`. -/
def stripCI (pat : List Char) (s : List Char) : Option (List Char) :=
  match pat, s with
  | [], rest => some rest
  | _ :: _, [] => none
  | p :: ps, c :: cs => if c.toLower == p then stripCI ps cs else none

/-- After an alphanumeric run, require `'.'` followed by an alphanumeric:
the continuation of `[a-z0-9]+\.[a-z0-9]+` once inside the run. -/
def extDomainAfterRun : List Char → Bool
  | c :: rest =>
    if isAsciiAlnumCI c then extDomainAfterRun rest
    else c == '.' && (match rest with | d :: _ => isAsciiAlnumCI d | [] => false)
  | [] => false

/-- `(?:[a-z0-9]+\.)?[a-z0-9]+\.[a-z0-9]+` (under `re.I`) as a prefix test:
an alphanumeric run, a dot, then an alphanumeric.  The optional leading
group is redundant for a prefix match. -/
def extDomainStart : List Char → Bool
  | c :: rest => isAsciiAlnumCI c && extDomainAfterRun rest
  | [] => false

/-- Consume `https?://` (case-insensitively) from the front. -/
def stripScheme (cs : List Char) : Option (List Char) :=
  match stripCI ['h','t','t','p'] cs with
  | none => none
  | some r =>
    let r' := match r with
      | 's' :: r2 => r2
      | 'S' :: r2 => r2
      | _ => r
    stripCI [':','/','/'] r'

/-- First alternative of the external-link pattern
`^(?:##TrackClick##)?https?://(?:[a-z0-9]+\.)?[a-z0-9]+\.[a-z0-9]+` (re.I). -/
def isExtAlt1 (cs : List Char) : Bool :=
  let cs1 := match stripCI "##trackclick##".toList cs with
    | some r => r
    | none => cs
  match stripScheme cs1 with
  | some r => extDomainStart r
  | none => false

/-- `^##.+##$`: the whole string is wrapped in `##...##` with at least one
character inside. -/
def fullyWrapped (cs : List Char) : Bool :=
  decide (cs.length ≥ 5) && cs.take 2 == ['#', '#']
    && (cs.drop (cs.length - 2)) == ['#', '#']

/-- The `href` filter `review` uses to collect external links:
`^(?:##TrackClick##)?https?://(?:[a-z0-9]+\.)?[a-z0-9]+\.[a-z0-9]+|^##.+##$|^$`
under `re.I`. -/
def isExternalHref (s : String) : Bool :=
  let cs := s.toList
  isExtAlt1 cs || fullyWrapped cs || cs.isEmpty

/-- The `href` filter for internal links: `^#(?!#)`. -/
def isInternalHref (s : String) : Bool :=
  match s.toList with
  | '#' :: rest => match rest with
    | '#' :: _ => false
    | _ => true
  | _ => false

/-- The `href` filter for mailto links: `^mailto:` under `re.I`. -/
def isMailtoHref (s : String) : Bool :=
  (stripCI "mailto:".toList s.toList).isSome

/-- Length of the longest prefix of `cs` matching `##.+##`, if any
(the greedy match of `re.sub(r'^##.+##', '', ...)`). -/
def wrapPrefixK (cs : List Char) : Nat → Option Nat
  | 0 => none
  | k + 1 =>
    if decide (k + 1 ≥ 5) && (cs.take (k + 1)).take 2 == ['#', '#']
        && ((cs.take (k + 1)).drop (k - 1)) == ['#', '#'] then
      some (k + 1)
    else wrapPrefixK cs k

/-- `re.sub(r'^##.+##', '', s)`: strip the longest `##...##` prefix. -/
def stripLeadingWrap (s : String) : String :=
  let cs := s.toList
  match wrapPrefixK cs cs.length with
  | some k => (cs.drop k).asString
  | none => s

/-- The tail of `cs` after the last case-insensitive occurrence of `url=`
that is followed by at least one character (the backtracking behaviour of
greedy `.*` before `url=(.+?)(?:&|$)`). -/
def lastUrlTail (cs : List Char) : Option (List Char) :=
  match cs with
  | [] => none
  | _ :: rest =>
    match lastUrlTail rest with
    | some t => some t
    | none =>
      match stripCI ['u','r','l','='] cs with
      | some tail => if tail.isEmpty then none else some tail
      | none => none

/-- `re.match(r'http://www\.ismailiinsight\.org/enewsletterpro/(?:v|t)\.aspx\?.*url=(.+?)(?:&|$)', href, re.I)`:
on success, the text captured by `(.+?)` (lazy: up to the first `&` after at
least one character, or the end of the string). -/
def doubleTrackCapture (s : String) : Option String :=
  match stripCI "http://www.ismailiinsight.org/enewsletterpro/".toList s.toList with
  | none => none
  | some r =>
    match r with
    | c :: r2 =>
      if c == 'v' || c == 'V' || c == 't' || c == 'T' then
        match stripCI ".aspx?".toList r2 with
        | none => none
        | some r3 =>
          match lastUrlTail r3 with
          | none => none
          | some tail =>
            some ((tail.take 1 ++ (tail.drop 1).takeWhile (fun c => c != '&')).asString)
      else none
    | [] => none

/-- `re.sub(r'%20', '', s)`: delete every literal `%20`. -/
def strip20L : List Char → List Char
  | '%' :: '2' :: '0' :: rest => strip20L rest
  | c :: rest => c :: strip20L rest
  | [] => []

/-- `re.sub(r'%20', '', s)` on strings. -/
def strip20 (s : String) : String :=
  (strip20L s.toList).asString

/-- `re.search(r'%20', s) is not None`. -/
def has20 : List Char → Bool
  | '%' :: '2' :: '0' :: _ => true
  | _ :: rest => has20 rest
  | [] => false

/-- Python `str.lower()` (ASCII model, as a character map; used where the
source lowercases whole attribute values). -/
def strLower (s : String) : String :=
  (s.toList.map Char.toLower).asString

/-- Python `str.strip()` (ASCII whitespace model). -/
def pyStrip (s : String) : String :=
  ((s.toList.dropWhile isPySpace).reverse.dropWhile isPySpace).reverse.asString

/-! ## External collaborators (`cache`, `requests`, `PIL`)

The spec treats the lookup cache, the URL helpers of `requests.compat` and
image fetching as black-box capabilities; they are supplied here as an
explicit environment. -/

/-- `cache.get_email(address)` result: `{is_valid, reason}`. -/
structure EmailInfo where
  is_valid : Bool
  reason : String
deriving Repr, DecidableEq

/-- The collaborator capabilities used by `document.py`. -/
structure Env where
  /-- `cache.get_default().get_webpage(url).status` -/
  webStatus : String → Int
  /-- `cache.get_default().get_email(address)` -/
  getEmail : String → EmailInfo
  /-- `requests.compat.unquote_plus` -/
  unquotePlus : String → String
  /-- `requests.compat.quote` -/
  quote : String → String
  /-- `requests.compat.unquote` -/
  unquote : String → String
  /-- `requests.compat.urljoin` -/
  urljoin : String → String → String
  /-- pixel width/height of the image fetched from the given source URL
  (`Image.open(RequestReader(requests.get(source)))`) -/
  imageDims : String → Nat × Nat

/-! ## The review engine

`review()` works on the `a` elements of the document: it collects external
links, fixes each, collects anchor names, fixes internal links, then fixes
mailto links.  An `a` element is modelled as an `ATag`; the document, for
review purposes, as the list of its `a` elements in document order
(`a` elements cannot nest, so fixing one never alters another). -/

/-- An `a` element: its `href`, `target` and `name` attributes and its
rendered text, kept as the list of its string pieces (prepended markers
become new head pieces, as `link.insert(0, marker)` does). -/
structure ATag where
  href : Option String
  target : Option String
  name : Option String
  children : List String
deriving Repr, DecidableEq

/-- `tag.text`: concatenation of the contained strings. -/
def tagText (t : ATag) : String :=
  String.join t.children

/-- `link.insert(0, s)`: prepend a text node. -/
def prependChild (s : String) (t : ATag) : ATag :=
  { t with children := s :: t.children }

/-- The tally built by `_fix_external_link` (and summed over all external
links into `result['links']`). -/
structure LinksTally where
  removed : Nat := 0
  retargetted : Nat := 0
  decoded : Nat := 0
  broken : Nat := 0
  unchecked : Nat := 0
deriving Repr, DecidableEq

/-- Pointwise sum of link tallies (`Counter` addition). -/
def addLinksTally (a b : LinksTally) : LinksTally :=
  ⟨a.removed + b.removed, a.retargetted + b.retargetted, a.decoded + b.decoded,
    a.broken + b.broken, a.unchecked + b.unchecked⟩

/-- The tally built by `_fix_internal_link` (summed into `result['anchors']`). -/
structure AnchorsTally where
  removed : Nat := 0
  marked : Nat := 0
deriving Repr, DecidableEq

/-- Pointwise sum of anchor tallies. -/
def addAnchorsTally (a b : AnchorsTally) : AnchorsTally :=
  ⟨a.removed + b.removed, a.marked + b.marked⟩

/-- The tally built by `_fix_email` (summed into `result['emails']`). -/
structure EmailsTally where
  invalid : Nat := 0
  cleaned : Nat := 0
  unchecked : Nat := 0
  removed : Nat := 0
deriving Repr, DecidableEq

/-- Pointwise sum of email tallies. -/
def addEmailsTally (a b : EmailsTally) : EmailsTally :=
  ⟨a.invalid + b.invalid, a.cleaned + b.cleaned,
    a.unchecked + b.unchecked, a.removed + b.removed⟩

/-- The summary returned by `review()`. -/
structure ReviewSummary where
  links : LinksTally
  anchors : AnchorsTally
  emails : EmailsTally
deriving Repr, DecidableEq

/-- Step 1 of `_fix_external_link`: the link is useless and gets removed
when `link['href'] in ('##TrackClick##', '')` or its text is blank. -/
def externalRemovable (h : String) (t : ATag) : Bool :=
  h == "##TrackClick##" || h == "" || isBlankText (tagText t)

/-- Step 2 of `_fix_external_link`: if `target` is absent or not
case-insensitively `_blank`, set `target="_blank"` (tally 1). -/
def retargetStep (t : ATag) : ATag × Nat :=
  match t.target with
  | some v =>
    if strLower v == "_blank" then (t, 0)
    else ({ t with target := some "_blank" }, 1)
  | none => ({ t with target := some "_blank" }, 1)

/-- Step 3 of `_fix_external_link`: decode a double-tracked href
(`link['href'] = requests.compat.unquote_plus(match.group(1))`, tally 1).
Returns the (possibly new) href, the (possibly updated) tag and the tally. -/
def decodeStep (env : Env) (h : String) (t : ATag) : String × ATag × Nat :=
  match doubleTrackCapture h with
  | some cap =>
    let h' := env.unquotePlus cap
    (h', { t with href := some h' }, 1)
  | none => (h, t, 0)

/-- Step 4 of `_fix_external_link`: unless the href is still fully wrapped
in `##...##`, look up the status of the href with any leading `##...##`
stripped; 403 prepends `*UNCHECKED*` (tally `unchecked`), any other
status in `[400, 600)` prepends `*BROKEN <status>*` (tally `broken`).
Returns the tag together with the `unchecked` and `broken` tallies. -/
def statusStep (env : Env) (h : String) (t : ATag) : ATag × Nat × Nat :=
  if fullyWrapped h.toList then (t, 0, 0)
  else
    let url := stripLeadingWrap h
    let st := env.webStatus url
    if st == 403 then (prependChild "*UNCHECKED*" t, 1, 0)
    else if 400 ≤ st ∧ st < 600 then
      (prependChild ("*BROKEN " ++ toString st ++ "*") t, 0, 1)
    else (t, 0, 0)

/-- `_fix_external_link(link)` where `h` is `link['href']`; `none` means the
element was decomposed. -/
def fixExternalLink (env : Env) (h : String) (t : ATag) : Option ATag × LinksTally :=
  if externalRemovable h t then (none, { removed := 1 })
  else
    let (t1, rt) := retargetStep t
    let (h2, t2, dec) := decodeStep env h t1
    let (t3, unc, brk) := statusStep env h2 t2
    (some t3, { retargetted := rt, decoded := dec, unchecked := unc, broken := brk })

/-- `_fix_internal_link(link, anchors)` where `h` is `link['href']`. -/
def fixInternalLink (anchors : List String) (h : String) (t : ATag) :
    Option ATag × AnchorsTally :=
  if isBlankText (tagText t) then (none, { removed := 1 })
  else
    let nm := h.drop 1
    if anchors.contains nm then (some t, {})
    else (some (prependChild ("*MISSING " ++ nm ++ "*") t), { marked := 1 })

/-- `_fix_email(email)` where `h` is `email['href']`. -/
def fixEmail (env : Env) (h : String) (t : ATag) : Option ATag × EmailsTally :=
  if isBlankText (tagText t) then (none, { removed := 1 })
  else
    let (h2, t1, cl) :=
      if has20 h.toList then
        let h' := strip20 h
        (h', { t with href := some h' }, 1)
      else (h, t, 0)
    let address := h2.drop 7
    let info := env.getEmail address
    if info.is_valid then (some t1, { cleaned := cl })
    else if info.reason == "accepted_email" then
      (some (prependChild "*UNCHECKED*" t1), { cleaned := cl, unchecked := 1 })
    else
      (some (prependChild ("*INVALID " ++ info.reason ++ "*") t1),
        { cleaned := cl, invalid := 1 })

/-- Whether `review` collects this tag as an external link. -/
def isExternalATag (t : ATag) : Bool :=
  match t.href with
  | some h => isExternalHref h
  | none => false

/-- Whether `review` collects this tag as an internal link. -/
def isInternalATag (t : ATag) : Bool :=
  match t.href with
  | some h => isInternalHref h
  | none => false

/-- Whether `review` collects this tag as a mailto link. -/
def isMailtoATag (t : ATag) : Bool :=
  match t.href with
  | some h => isMailtoHref h
  | none => false

/-- The external-link pass of `review()`: fix every tag whose `href`
matches the external pattern, keep the others untouched. -/
def reviewExternalPass (env : Env) : List ATag → List ATag × LinksTally
  | [] => ([], {})
  | t :: rest =>
    let (rest', tally) := reviewExternalPass env rest
    match t.href with
    | some h =>
      if isExternalHref h then
        let (t', tl) := fixExternalLink env h t
        match t' with
        | some u => (u :: rest', addLinksTally tl tally)
        | none => (rest', addLinksTally tl tally)
      else (t :: rest', tally)
    | none => (t :: rest', tally)

/-- The internal-link pass of `review()`. -/
def reviewInternalPass (anchors : List String) : List ATag → List ATag × AnchorsTally
  | [] => ([], {})
  | t :: rest =>
    let (rest', tally) := reviewInternalPass anchors rest
    match t.href with
    | some h =>
      if isInternalHref h then
        let (t', tl) := fixInternalLink anchors h t
        match t' with
        | some u => (u :: rest', addAnchorsTally tl tally)
        | none => (rest', addAnchorsTally tl tally)
      else (t :: rest', tally)
    | none => (t :: rest', tally)

/-- The mailto pass of `review()`. -/
def reviewEmailPass (env : Env) : List ATag → List ATag × EmailsTally
  | [] => ([], {})
  | t :: rest =>
    let (rest', tally) := reviewEmailPass env rest
    match t.href with
    | some h =>
      if isMailtoHref h then
        let (t', tl) := fixEmail env h t
        match t' with
        | some u => (u :: rest', addEmailsTally tl tally)
        | none => (rest', addEmailsTally tl tally)
      else (t :: rest', tally)
    | none => (t :: rest', tally)

/-- `document.review()`: external links first, then anchors are collected
(`[a['name'] for a in find_all(_is_anchor)]`), then internal links, then
mailto links.  Returns the surviving `a` elements and the summary. -/
def review (env : Env) (doc : List ATag) : List ATag × ReviewSummary :=
  let (d1, lt) := reviewExternalPass env doc
  let anchors := d1.filterMap (·.name)
  let (d2, at') := reviewInternalPass anchors d1
  let (d3, et) := reviewEmailPass env d2
  (d3, ⟨lt, at', et⟩)

/-! ## The repair engine: background-wrapper normalization

`repair()`'s third step (`document.py` lines 237-243) inspects
`self._data.body.find('div', recursive=False)`: the first *div* among the
direct children of `body`.  The direct children are modelled as `HNode`s. -/

/-- A node of the markup tree: an element with tag name, attributes and
children, or a text node. -/
inductive HNode where
  | elem (name : String) (attrs : List (String × String)) (children : List HNode)
  | text (s : String)
deriving Repr

/-- Attribute lookup on an element's attribute list. -/
def getAttr (attrs : List (String × String)) (k : String) : Option String :=
  match attrs with
  | [] => none
  | (k', v) :: rest => if k' == k then some v else getAttr rest k

/-- `body.find('div', recursive=False)`: the first direct child that is a
`div` element (text nodes and other elements are skipped). -/
def findDivChild : List HNode → Option HNode
  | [] => none
  | HNode.elem nm attrs cs :: rest =>
    if nm == "div" then some (HNode.elem nm attrs cs) else findDivChild rest
  | HNode.text _ :: rest => findDivChild rest

/-- The exact style string the wrapper must carry. -/
def grayStyle : String := "background-color: #595959;"

/-- The background-wrapper step of `repair()` on the direct children of
`body`: if `find('div', recursive=False)` yields nothing or a `div` whose
`style` differs from `grayStyle`, a fresh wrapper `div` receives every
child of `body` (in order) and becomes its sole child (tally 1); a `div`
without a `style` attribute makes `div_child['style']` raise `KeyError`.
Returns the new children of `body` and the `background` tally. -/
def repairBackground (body : List HNode) : Except PyError (List HNode × Nat) :=
  match findDivChild body with
  | none =>
    .ok ([HNode.elem "div" [("style", grayStyle)] body], 1)
  | some (HNode.elem _ attrs _) =>
    match getAttr attrs "style" with
    | none => .error (.keyError "style")
    | some st =>
      if st == grayStyle then .ok (body, 0)
      else .ok ([HNode.elem "div" [("style", grayStyle)] body], 1)
  | some (HNode.text _) => .error .attributeError

/-! ## The body-boundary classifier `_is_before_body`

`_is_before_body(tag)` (`document.py` lines 60-68) looks at the following
siblings of `tag`.  A sibling element is modelled by its tag name, its
rendered text and whether it contains an `img` descendant. -/

/-- A following-sibling element as `_is_before_body` sees it. -/
structure SibTag where
  name : String
  text : String
  hasImg : Bool
deriving Repr, DecidableEq

/-- `tag.find_next_sibling(nm)`: first following sibling with that name. -/
def findNextSiblingNamed (nm : String) (sibs : List SibTag) : Option SibTag :=
  sibs.find? (fun s => s.name == nm)

/-- `Document._is_before_body`, for a tag with name `tagName` whose
following sibling elements are `sibs`.  When the tag is a `div` with a
following `table` but no following `div`, the guard falls through and
`next_div.text` dereferences `None`, raising `AttributeError`. -/
def isBeforeBody (tagName : String) (sibs : List SibTag) : Except PyError Bool :=
  let nextDiv := findNextSiblingNamed "div" sibs
  let nextTable := findNextSiblingNamed "table" sibs
  if tagName != "div" || (nextDiv.isNone && nextTable.isNone) then .ok false
  else
    match nextDiv with
    | none => .error .attributeError
    | some d => .ok (!isBlankText d.text || nextTable.isSome || d.hasImg)

/-! ## The content-descriptor compiler (`_set_content` and helpers) -/

/-- A compiled markup fragment. -/
inductive Html where
  | tag (name : String) (attrs : List (String × String)) (children : List Html)
  | text (s : String)
deriving Repr

/-- `Document.BASE_URL`. -/
def baseUrl : String :=
  "https://ismailiinsight.org/eNewsletterPro/uploadedimages/000001/"

/-- `Document._ensure_quoted`. -/
def ensureQuoted (env : Env) (url : String) : String :=
  env.quote (env.unquote url)

/-- The result of `Document._get_image_details`. -/
structure ImageData where
  source : String
  width : Nat
  height : Nat
deriving Repr

/-- `Document._get_image_details`: base-URL join of the quoted partial url,
then the fetched image's pixel dimensions. -/
def getImageDetails (env : Env) (imageUrl : String) : ImageData :=
  let source := env.urljoin baseUrl (ensureQuoted env imageUrl)
  let (w, h) := env.imageDims source
  ⟨source, w, h⟩

mutual

/-- Python `str()` of a transform value (repr semantics for containers). -/
def pyStr : PyVal → String
  | .str s => s
  | .int n => toString n
  | .list xs => "[" ++ pyReprSeq xs ++ "]"
  | .dict xs => "\x7b" ++ pyReprKVSeq xs ++ "\x7d"

def pyRepr : PyVal → String
  | .str s => String.singleton '\'' ++ s ++ String.singleton '\''
  | .int n => toString n
  | .list xs => "[" ++ pyReprSeq xs ++ "]"
  | .dict xs => "\x7b" ++ pyReprKVSeq xs ++ "\x7d"

def pyReprSeq : List PyVal → String
  | [] => ""
  | [x] => pyRepr x
  | x :: xs => pyRepr x ++ ", " ++ pyReprSeq xs

def pyReprKVSeq : List (String × PyVal) → String
  | [] => ""
  | [(k, v)] => String.singleton '\'' ++ k ++ String.singleton '\'' ++ ": " ++ pyRepr v
  | (k, v) :: xs =>
    String.singleton '\'' ++ k ++ String.singleton '\'' ++ ": " ++ pyRepr v ++ ", "
      ++ pyReprKVSeq xs

end

/-- The capability-key set `hyperlinks = {'link', 'file', 'email'}`. -/
def hyperlinkKeys : List String := ["link", "file", "email"]

/-- The capability-key set `formats = {'bold', 'italics', 'underline'}`. -/
def formatKeys : List String := ["bold", "italics", "underline"]

/-- The capability-key set `navigation = {'jump', 'anchor'}`. -/
def navigationKeys : List String := ["jump", "anchor"]

/-- The capability-key set `lists = {'numbers', 'bullets'}`. -/
def listKeys : List String := ["numbers", "bullets"]

/-- Python `+` applied to two sets, as in
`hyperlinks + formats + navigation + lists + {'image'}` inside the final
`raise` of `_set_content`: `set.__add__` does not exist, so evaluating the
expression raises `TypeError` before `UnknownTransform` is constructed. -/
def pySetAdd (a b : List String) : Except PyError (List String) :=
  .error .typeError

/-- `hyperlinks & item.keys()`-style nonempty-intersection test. -/
def hasAnyKey (ks capSet : List String) : Bool :=
  ks.any (fun k => capSet.contains k)

theorem pyGet_sizeOf_lt {d : List (String × PyVal)} {k : String} {v : PyVal}
    (h : pyGet d k = some v) : sizeOf v < sizeOf d := by
  induction d with
  | nil => simp [pyGet] at h
  | cons hd tl ih =>
    obtain ⟨k', v'⟩ := hd
    simp only [pyGet] at h
    split at h
    · cases h
      simp
      omega
    · have := ih h
      simp
      omega

/-- A helper for `_add_image`'s outer table tag. -/
def imageTable (rows : List Html) : Html :=
  Html.tag "table"
    [("align", "center"),
      ("style", "font-family: " ++ String.singleton '\'' ++ "Segoe UI"
        ++ String.singleton '\'' ++ "; font-size: 13px; color: rgb(89, 89, 89);")]
    [Html.tag "tbody" [] rows]

mutual

/-- One iteration of the loop in `Document._set_content`: a dict descriptor
is dispatched on its capability keys in the source's priority order; any
other value is appended as text.  In the final `else`, the source evaluates
`hyperlinks + formats + navigation + lists + {'image'}` to build an
`UnknownTransform` — `+` is unsupported between sets, so a `TypeError` is
raised instead. -/
def compileItem (env : Env) : PyVal → Except PyError (List Html)
  | .dict d =>
    let ks := d.map Prod.fst
    if hasAnyKey ks hyperlinkKeys then addHyperlink env d
    else if ks.contains "image" then addImage env d
    else if hasAnyKey ks formatKeys then addFormatted env d
    else if hasAnyKey ks navigationKeys then addNavigation env d
    else if hasAnyKey ks listKeys then addList env d
    else do
      let s1 ← pySetAdd hyperlinkKeys formatKeys
      let s2 ← pySetAdd s1 navigationKeys
      let s3 ← pySetAdd s2 listKeys
      let s4 ← pySetAdd s3 ["image"]
      .error (.unknownTransform (.dict d) s4)
  | v => .ok [Html.text (pyStr v)]
  termination_by v => 4 * sizeOf v
  decreasing_by all_goals (simp_wf; try omega)

/-- `Document._set_content(parent, content_list)`: wrap a non-list value
and compile each item in order; the compiled children replace the parent's
content. -/
def setContent (env : Env) (v : PyVal) : Except PyError (List Html) :=
  match v with
  | .list xs => compileList env xs
  | v' => compileItem env v'
  termination_by 4 * sizeOf v + 1
  decreasing_by all_goals (simp_wf; try omega)

/-- The item loop of `_set_content` over an actual list. -/
def compileList (env : Env) : List PyVal → Except PyError (List Html)
  | [] => .ok []
  | x :: xs =>
    match compileItem env x with
    | .error e => .error e
    | .ok c =>
      match compileList env xs with
      | .error e => .error e
      | .ok cs => .ok (c ++ cs)
  termination_by xs => 4 * sizeOf xs
  decreasing_by all_goals (simp_wf; try omega)

/-- The `li` loop of `_add_list`: each item is compiled into its own `li`. -/
def compileLis (env : Env) : List PyVal → Except PyError (List Html)
  | [] => .ok []
  | x :: xs =>
    match setContent env x with
    | .error e => .error e
    | .ok c =>
      match compileLis env xs with
      | .error e => .error e
      | .ok r => .ok (Html.tag "li" [] c :: r)
  termination_by xs => 4 * sizeOf xs + 2
  decreasing_by all_goals (simp_wf; try omega)

/-- `Document._add_hyperlink`: resolve the descriptor to a link url and a
default text, taking `link`, `file`, `email` in that order.  A `link`
value of any type is accepted here (both lines are plain assignments); a
non-string `file` value raises `AttributeError` at `.rsplit`; the email
try-block ends in a bare `except:`, so besides the missing key it also
turns the `TypeError` of `'mailto:' + <non-string>` into the
`UnknownTransform`. -/
def addHyperlink (env : Env) (d : List (String × PyVal)) : Except PyError (List Html) :=
  match pyGet d "link" with
  | some v => hyperlinkFinish env d v (pyStr v)
  | none =>
    match pyGet d "file" with
    | some v =>
      match v with
      | .str s =>
        hyperlinkFinish env d (.str ((s.splitOn "/").getLastD ""))
          (env.urljoin baseUrl (ensureQuoted env s))
      | _ => .error .attributeError
    | none =>
      match pyGet d "email" with
      | some (.str s) => hyperlinkFinish env d (.str s) ("mailto:" ++ s)
      | some _ => .error (.unknownTransform (.dict d) ["link", "file", "email"])
      | none => .error (.unknownTransform (.dict d) ["link", "file", "email"])
  termination_by 4 * sizeOf d + 3
  decreasing_by all_goals (simp_wf; try omega)

/-- The tail of `_add_hyperlink`: the explicit `text` sub-descriptor is
compiled (a `KeyError` anywhere in that falls back to the default text),
and an `a` tag opening in a new window is produced.  The fallback
`a_tag.string = default_text` only works for a string: any other default
text raises `AttributeError` inside bs4's insert. -/
def hyperlinkFinish (env : Env) (d : List (String × PyVal))
    (defaultText : PyVal) (linkUrl : String) : Except PyError (List Html) :=
  match h : pyGet d "text" with
  | some t =>
    match setContent env t with
    | .ok c => .ok [Html.tag "a" [("href", linkUrl), ("target", "_blank")] c]
    | .error (.keyError _) =>
      match defaultText with
      | .str s =>
        .ok [Html.tag "a" [("href", linkUrl), ("target", "_blank")] [Html.text s]]
      | _ => .error .attributeError
    | .error e => .error e
  | none =>
    match defaultText with
    | .str s =>
      .ok [Html.tag "a" [("href", linkUrl), ("target", "_blank")] [Html.text s]]
    | _ => .error .attributeError
  termination_by 4 * sizeOf d + 2
  decreasing_by
    all_goals simp_wf
    all_goals try omega
    all_goals have h9 := pyGet_sizeOf_lt (by assumption)
    all_goals omega

/-- `Document._add_image`: a table whose first row holds the fetched image
and whose optional second row holds the compiled caption. -/
def addImage (env : Env) (d : List (String × PyVal)) : Except PyError (List Html) :=
  match pyGet d "image" with
  | none => .error (.keyError "image")
  | some v =>
    match v with
    | .str s =>
      let idata := getImageDetails env s
      let imgRow := Html.tag "tr" []
        [Html.tag "td" [("style", "text-align: center; vertical-align: middle;")]
          [Html.tag "img"
            [("src", idata.source), ("width", toString idata.width),
              ("height", toString idata.height)] []]]
      match h : pyGet d "caption" with
      | some c =>
        match setContent env c with
        | .ok cc =>
          .ok [imageTable [imgRow,
            Html.tag "tr" []
              [Html.tag "td"
                [("style", "text-align: justify; vertical-align: middle; font-size: 10px;")]
                cc]]]
        | .error (.keyError _) => .ok [imageTable [imgRow]]
        | .error e => .error e
      | none => .ok [imageTable [imgRow]]
    | _ => .error .typeError
  termination_by 4 * sizeOf d + 3
  decreasing_by
    all_goals simp_wf
    all_goals try omega
    all_goals have h9 := pyGet_sizeOf_lt (by assumption)
    all_goals omega

/-- `Document._add_formatted`: `bold`/`italics`/`underline` dispatch. -/
def addFormatted (env : Env) (d : List (String × PyVal)) : Except PyError (List Html) :=
  match h : pyGet d "bold" with
  | some v =>
    match setContent env v with
    | .ok c => .ok [Html.tag "strong" [] c]
    | .error e => .error e
  | none =>
    match h : pyGet d "italics" with
    | some v =>
      match setContent env v with
      | .ok c => .ok [Html.tag "em" [] c]
      | .error e => .error e
    | none =>
      match h : pyGet d "underline" with
      | some v =>
        match setContent env v with
        | .ok c => .ok [Html.tag "u" [] c]
        | .error e => .error e
      | none => .error (.unknownTransform (.dict d) ["bold", "italics", "underline"])
  termination_by 4 * sizeOf d + 3
  decreasing_by
    all_goals simp_wf
    all_goals try omega
    all_goals have h9 := pyGet_sizeOf_lt (by assumption)
    all_goals omega

/-- `Document._add_navigation`: `anchor` drops a named anchor, `jump`
links to one.  The anchor branch is a plain attribute assignment and
accepts any value, while the jump branch computes `'#' + value`, whose
`TypeError` on a non-string is not caught (only `KeyError` is). -/
def addNavigation (env : Env) (d : List (String × PyVal)) : Except PyError (List Html) :=
  match pyGet d "anchor" with
  | some v => navigationFinish env d v [("name", pyStr v)]
  | none =>
    match pyGet d "jump" with
    | some (.str s) => navigationFinish env d (.str s) [("href", "#" ++ s)]
    | some _ => .error .typeError
    | none => .error (.unknownTransform (.dict d) ["anchor", "jump"])
  termination_by 4 * sizeOf d + 3
  decreasing_by all_goals (simp_wf; try omega)

/-- The tail of `_add_navigation`: same `text`/default handling as
`_add_hyperlink`, including the `AttributeError` that
`a_tag.string = default_text` raises for a non-string default. -/
def navigationFinish (env : Env) (d : List (String × PyVal))
    (defaultText : PyVal) (attrs : List (String × String)) :
    Except PyError (List Html) :=
  match h : pyGet d "text" with
  | some t =>
    match setContent env t with
    | .ok c => .ok [Html.tag "a" attrs c]
    | .error (.keyError _) =>
      match defaultText with
      | .str s => .ok [Html.tag "a" attrs [Html.text s]]
      | _ => .error .attributeError
    | .error e => .error e
  | none =>
    match defaultText with
    | .str s => .ok [Html.tag "a" attrs [Html.text s]]
    | _ => .error .attributeError
  termination_by 4 * sizeOf d + 2
  decreasing_by
    all_goals simp_wf
    all_goals try omega
    all_goals have h9 := pyGet_sizeOf_lt (by assumption)
    all_goals omega

/-- `Document._add_list`: `numbers` builds an `ol`, `bullets` a `ul`. -/
def addList (env : Env) (d : List (String × PyVal)) : Except PyError (List Html) :=
  match h : pyGet d "numbers" with
  | some v => buildListTag env "ol" v
  | none =>
    match h : pyGet d "bullets" with
    | some v => buildListTag env "ul" v
    | none => .error (.unknownTransform (.dict d) ["numbers", "bullets"])
  termination_by 4 * sizeOf d + 3
  decreasing_by
    all_goals simp_wf
    all_goals try omega
    all_goals have h9 := pyGet_sizeOf_lt (by assumption)
    all_goals omega

/-- The item loop of `_add_list`.  Iterating a Python string yields its
characters (each a one-character string compiling to a text node), iterating
a dict yields its keys, and iterating an int raises `TypeError`. -/
def buildListTag (env : Env) (nm : String) (v : PyVal) : Except PyError (List Html) :=
  match v with
  | .list xs =>
    match compileLis env xs with
    | .ok lis => .ok [Html.tag nm [] lis]
    | .error e => .error e
  | .str s =>
    .ok [Html.tag nm []
      (s.toList.map (fun c => Html.tag "li" [] [Html.text (String.singleton c)]))]
  | .dict kd =>
    .ok [Html.tag nm [] (kd.map (fun kv => Html.tag "li" [] [Html.text kv.1]))]
  | .int _ => .error .typeError
  termination_by 4 * sizeOf v + 2
  decreasing_by all_goals (simp_wf; try omega)

end

/-! ## The apply engine (`Document.apply` and helpers)

`apply(transforms)` mutates the tree and consumes the specification dict,
returning what remains.  The specification is an ordered dict
`List (String × PyVal)`; the document side is abstracted to exactly what
`apply` reads from it: whether the masthead image search succeeds, and the
sequence of article-title elements, each carrying its rendered text and the
outcomes of its two sibling searches
(`find_next_sibling(_is_before_body)` / `find_next_sibling(_is_before_return)`,
which can themselves raise, see `isBeforeBody`). -/

/-- A dict of transform groups. -/
abbrev Transforms := List (String × PyVal)

/-- `del d[k]` on a Python dict: raises `KeyError` when absent. -/
def pyDelE (d : Transforms) (k : String) : Except PyError Transforms :=
  match d with
  | [] => .error (.keyError k)
  | (k', v) :: rest =>
    if k' == k then .ok rest
    else
      match pyDelE rest k with
      | .ok rest' => .ok ((k', v) :: rest')
      | .error e => .error e

/-- Replace the value bound to `k` (in-place dict mutation). -/
def pySetVal (d : Transforms) (k : String) (v : PyVal) : Transforms :=
  match d with
  | [] => []
  | (k', v') :: rest =>
    if k' == k then (k, v) :: rest else (k', v') :: pySetVal rest k v

/-- `value[...]` subscripting with a string key: only a dict supports it;
a string, int or list raises `TypeError`. -/
def asDict (v : PyVal) : Except PyError (List (String × PyVal)) :=
  match v with
  | .dict d => .ok d
  | _ => .error .typeError

/-- `value.keys()` access: a non-dict value has no `keys` attribute, so the
access raises `AttributeError`. -/
def asDictKeys (v : PyVal) : Except PyError (List (String × PyVal)) :=
  match v with
  | .dict d => .ok d
  | _ => .error .attributeError

/-- The `for descriptor in paragraph_list` loop of `_add_paragraphs`:
compile each paragraph descriptor (the built `div` blocks and `br`
separators cannot fail, so only compilation outcomes matter here). -/
def compileParas (env : Env) : List PyVal → Except PyError Unit
  | [] => .ok ()
  | x :: xs =>
    match setContent env x with
    | .ok _ => compileParas env xs
    | .error e => .error e

/-- `Document._add_paragraphs(reference, group, action)`:
`group[action]` (KeyError when absent), then the descriptor loop.
Iterating a string or a dict yields strings (which always compile);
iterating an int raises `TypeError`. -/
def addParagraphs (env : Env) (g : List (String × PyVal)) (action : String) :
    Except PyError Unit :=
  match pyGet g action with
  | none => .error (.keyError action)
  | some plist =>
    match plist with
    | .list xs => compileParas env xs
    | .str _ => .ok ()
    | .dict _ => .ok ()
    | .int _ => .error .typeError

/-- `Document._add_left_right`: left column paragraphs, then right. -/
def addLeftRight (env : Env) (g : List (String × PyVal)) : Except PyError Unit :=
  match addParagraphs env g "left" with
  | .ok _ => addParagraphs env g "right"
  | .error e => .error e

/-- An article-title element as `apply` consumes it. -/
structure Article where
  /-- `art.text` (after the parent-`a` adjustment of lines 490-491). -/
  titleText : String
  /-- Outcome of `art.find_next_sibling(self._is_before_body)`. -/
  bodySearch : Except PyError (Option Unit)
  /-- Outcome of `art.find_next_sibling(self._is_before_return)`. -/
  returnSearch : Except PyError (Option Unit)

/-- The document as `apply` reads it. -/
structure ApplyDoc where
  /-- Whether the masthead location of lines 478-479 succeeds:
  `find('img', src=re.compile(...))` finds a tag (on `None` the
  `front_image.parent.div` access raises) and its caption `div` exists. -/
  mastheadFound : Bool
  articles : List Article

/-- The `'top' in transforms` branch of `apply` (lines 477-486): find the
masthead image (`AttributeError` when absent), fetch the new image
(`transforms['top']['image']`), compile the caption
(`transforms['top']['caption']`), and delete the `top` entry. -/
def applyTop (env : Env) (doc : ApplyDoc) (tr : Transforms) : Except PyError Transforms :=
  match pyGet tr "top" with
  | none => .ok tr
  | some topv =>
    if doc.mastheadFound then
      match asDict topv with
      | .error e => .error e
      | .ok g =>
        match pyGet g "image" with
        | none => .error (.keyError "image")
        | some imgv =>
          match imgv with
          | .str s =>
            let _ := getImageDetails env s
            match pyGet g "caption" with
            | none => .error (.keyError "caption")
            | some capv =>
              match setContent env capv with
              | .ok _ => pyDelE tr "top"
              | .error e => .error e
          | _ => .error .typeError
    else .error .attributeError

/-- The body-transform block of `apply` (lines 501-509): when any of
`body`/`left`/`right` is present the body is cleared (raising on a missing
body-start marker) and the `try` of `_add_left_right` falls back, on
`KeyError`, to `_add_paragraphs(..., 'body')`; the consumed keys are
deleted from the group. -/
def bodyTransformStep (env : Env) (before : Option Unit)
    (g : List (String × PyVal)) : Except PyError (List (String × PyVal)) :=
  if hasAnyKey (g.map Prod.fst) ["body", "left", "right"] then
    match before with
    | none => .error .attributeError
    | some _ =>
      let tryBlock : Except PyError (List (String × PyVal)) :=
        match addLeftRight env g with
        | .error e => .error e
        | .ok _ =>
          match pyDelE g "left" with
          | .error e => .error e
          | .ok g1 => pyDelE g1 "right"
      match tryBlock with
      | .ok g' => .ok g'
      | .error (.keyError _) =>
        match addParagraphs env g "body" with
        | .error e => .error e
        | .ok _ => pyDelE g "body"
      | .error e => .error e
  else .ok g

/-- The title-transform block of `apply` (lines 512-516): compile the
`title` sub-descriptor and delete the key, any `KeyError` in the block
being swallowed. -/
def titleTransformStep (env : Env) (g2 : List (String × PyVal)) :
    Except PyError (List (String × PyVal)) :=
  let titleBlock : Except PyError (List (String × PyVal)) :=
    match pyGet g2 "title" with
    | none => .error (.keyError "title")
    | some tv =>
      match setContent env tv with
      | .ok _ => pyDelE g2 "title"
      | .error e => .error e
  match titleBlock with
  | .ok g' => .ok g'
  | .error (.keyError _) => .ok g2
  | .error e => .error e

/-- Lines 518-519 of `apply`: drop the group once exhausted, else store it
back. -/
def finishArticle (tr : Transforms) (title : String)
    (g3 : List (String × PyVal)) : Except PyError Transforms :=
  if g3.isEmpty then pyDelE tr title
  else .ok (pySetVal tr title (.dict g3))

/-- The body of the article loop of `apply` (lines 489-519) for one
article: skip when the trimmed title is not a key; otherwise run the two
sibling searches, then the body transform, the title transform, and the
final bookkeeping on the specification entry. -/
def processArticle (env : Env) (tr : Transforms) (art : Article) :
    Except PyError Transforms :=
  let title := pyStrip art.titleText
  match pyGet tr title with
  | none => .ok tr
  | some gval =>
    match art.bodySearch with
    | .error e => .error e
    | .ok before =>
      match art.returnSearch with
      | .error e => .error e
      | .ok _ =>
        match asDictKeys gval with
        | .error e => .error e
        | .ok g =>
          match bodyTransformStep env before g with
          | .error e => .error e
          | .ok g2 =>
            match titleTransformStep env g2 with
            | .error e => .error e
            | .ok g3 => finishArticle tr title g3

/-- The `for art in articles` loop of `apply`. -/
def goArticles (env : Env) : Transforms → List Article → Except PyError Transforms
  | tr, [] => .ok tr
  | tr, a :: rest =>
    match processArticle env tr a with
    | .error e => .error e
    | .ok tr' => goArticles env tr' rest

/-- `Document.apply(transforms)`: the `top` step, then the article loop in
document order; whatever remains of the specification is returned. -/
def applyTransforms (env : Env) (doc : ApplyDoc) (tr : Transforms) :
    Except PyError Transforms :=
  match applyTop env doc tr with
  | .error e => .error e
  | .ok tr1 => goArticles env tr1 doc.articles

/-- The trimmed titles of the document's articles, in document order. -/
def docTitles (doc : ApplyDoc) : List String :=
  doc.articles.map (fun a => pyStrip a.titleText)

/-! ## Derived predicates used in the statements -/

/-- An external link `review` would remove in step 1: collected by the
external `href` pattern and useless (placeholder or empty `href`, or blank
text). -/
def removableExternal (t : ATag) : Bool :=
  match t.href with
  | some h => isExternalHref h && externalRemovable h t
  | none => false

/-- The retarget condition of step 2: `target` absent or not
case-insensitively `_blank`. -/
def badTargetATag (t : ATag) : Bool :=
  match t.target with
  | some v => !(strLower v == "_blank")
  | none => true

/-- The case-insensitive retarget invariant: any tag whose `href` is
external-shaped carries a `target` that lowercases to `_blank`. -/
def extTargetInv (t : ATag) : Prop :=
  ∀ h, t.href = some h → isExternalHref h = true →
    ∃ v, t.target = some v ∧ strLower v = "_blank"

/-- Modelled from the spec's words for the background-wrapper claim:
"the body's direct first child is a `div` with the exact style
`background-color: #595959;`". -/
def firstChildIsGrayWrapper (body : List HNode) : Bool :=
  match body with
  | HNode.elem nm attrs _ :: _ =>
    nm == "div" && getAttr attrs "style" == some grayStyle
  | _ => false

/-- Whether an embedded computation succeeded. -/
def exceptOk {α : Type} (e : Except PyError α) : Bool :=
  match e with
  | .ok _ => true
  | .error _ => false

/-- Remove the first binding of `k` (the pure effect of a successful
`del d[k]`). -/
def eraseKey (d : Transforms) (k : String) : Transforms :=
  match d with
  | [] => []
  | (k', v) :: rest => if k' == k then rest else (k', v) :: eraseKey rest k

/-- A transform group that `apply` consumes completely: a dict whose keys
are among `title`/`body`/`left`/`right` (unique), with `left` and `right`
paired and overriding `body`, and whose descriptors all compile. -/
def groupOK (env : Env) (v : PyVal) : Bool :=
  match v with
  | .dict g =>
    let ks := g.map Prod.fst
    decide ks.Nodup
      && ks.all (fun k => (["title", "body", "left", "right"] : List String).contains k)
      && (ks.contains "left" == ks.contains "right")
      && !(ks.contains "left" && ks.contains "body")
      && (!(ks.contains "body") || exceptOk (addParagraphs env g "body"))
      && (!(ks.contains "left") || exceptOk (addLeftRight env g))
      && (match pyGet g "title" with
          | some tv => exceptOk (setContent env tv)
          | none => true)
  | _ => false

/-- A `top` entry `apply` consumes completely: a dict with a string
`image` and a compilable `caption`. -/
def topOK (env : Env) (v : PyVal) : Bool :=
  match v with
  | .dict g =>
    (match pyGet g "image" with
      | some (.str _) => true
      | _ => false)
      && (match pyGet g "caption" with
          | some c => exceptOk (setContent env c)
          | none => false)
  | _ => false

/-- A collaborator environment with inert lookups, used to instantiate the
universally quantified theorems on concrete documents. -/
def noopEnv : Env where
  webStatus := fun _ => 200
  getEmail := fun _ => ⟨true, "accepted"⟩
  unquotePlus := id
  quote := id
  unquote := id
  urljoin := fun a b => a ++ b
  imageDims := fun _ => (1, 1)

/-! ## Helper lemmas about the review passes -/

theorem fixExternal_removable (env : Env) (h : String) (t : ATag)
    (hr : externalRemovable h t = true) :
    fixExternalLink env h t = (none, { removed := 1 }) := by
  simp [fixExternalLink, hr]

theorem fixExternal_surviving (env : Env) (h : String) (t : ATag)
    (hr : externalRemovable h t = false) :
    (fixExternalLink env h t).2.removed = 0 ∧ (fixExternalLink env h t).1.isSome := by
  rcases hrt : retargetStep t with ⟨t1, rt⟩
  rcases hdc : decodeStep env h t1 with ⟨h2, t2, dec⟩
  rcases hst : statusStep env h2 t2 with ⟨t3, unc, brk⟩
  simp [fixExternalLink, hr, hrt, hdc, hst]

theorem pass1_removed_count (env : Env) (doc : List ATag) :
    (reviewExternalPass env doc).2.removed = doc.countP removableExternal := by
  induction doc with
  | nil => simp [reviewExternalPass, removableExternal]
  | cons t rest ih =>
    rcases hrec : reviewExternalPass env rest with ⟨rest', tally⟩
    rw [hrec] at ih
    simp only at ih
    cases ht : t.href with
    | none =>
      have hnr : removableExternal t = false := by simp [removableExternal, ht]
      simp [reviewExternalPass, hrec, ht, List.countP_cons, hnr, ih]
    | some h =>
      by_cases hext : isExternalHref h = true
      · by_cases hrem : externalRemovable h t = true
        · have hyes : removableExternal t = true := by
            simp [removableExternal, ht, hext, hrem]
          simp [reviewExternalPass, hrec, ht, hext, fixExternal_removable env h t hrem,
            List.countP_cons, hyes, addLinksTally, ih]
          omega
        · have hno : removableExternal t = false := by
            simp [removableExternal, ht, hrem]
          rcases hfix : fixExternalLink env h t with ⟨uo, tl⟩
          have h0 : tl.removed = 0 ∧ uo.isSome := by
            have hh := fixExternal_surviving env h t (by simpa using hrem)
            rw [hfix] at hh
            simpa using hh
          rcases uo with _ | u
          · simp at h0
          · simp [reviewExternalPass, hrec, ht, hext, hfix, List.countP_cons, hno,
              addLinksTally, ih, h0.1]
      · have hno : removableExternal t = false := by
          simp [removableExternal, ht, hext]
        simp [reviewExternalPass, hrec, ht, hext, List.countP_cons, hno, ih]

theorem review_links_tally (env : Env) (doc : List ATag) :
    (review env doc).2.links = (reviewExternalPass env doc).2 := by
  rcases h1 : reviewExternalPass env doc with ⟨d1, lt⟩
  rcases h2 : reviewInternalPass (d1.filterMap (·.name)) d1 with ⟨d2, at2⟩
  rcases h3 : reviewEmailPass env d2 with ⟨d3, et⟩
  simp [review, h1, h2, h3]

theorem statusStep_preserves (env : Env) (h : String) (t : ATag) :
    ((statusStep env h t).1).href = t.href ∧ ((statusStep env h t).1).target = t.target := by
  by_cases hw : fullyWrapped h.toList = true
  · have hwd : fullyWrapped h.data = true := hw
    simp [statusStep, hw, hwd]
  · have hwd : fullyWrapped h.data = false := by simpa using hw
    by_cases h403 : env.webStatus (stripLeadingWrap h) = 403
    · simp [statusStep, hw, hwd, h403, prependChild]
    · by_cases hbr : 400 ≤ env.webStatus (stripLeadingWrap h)
          ∧ env.webStatus (stripLeadingWrap h) < 600
      · simp [statusStep, hw, hwd, h403, hbr, prependChild]
      · simp [statusStep, hw, hwd, h403, hbr]

theorem strip20L_cons_ne (c : Char) (cs : List Char) (hc : c ≠ '%') :
    strip20L (c :: cs) = c :: strip20L cs := by
  rw [strip20L.eq_def]
  split
  · rename_i rest heq
    injection heq with h1 _
    exact absurd h1 hc
  · rename_i c' rest heq
    injection heq with h1 h2
    rw [h1, h2]
  · rename_i heq
    exact absurd heq (by simp)

theorem retargetStep_target (t : ATag) :
    ∃ v, ((retargetStep t).1).target = some v ∧ strLower v = "_blank" := by
  unfold retargetStep
  cases ht : t.target with
  | none => exact ⟨"_blank", by simp, by decide⟩
  | some v =>
    by_cases hv : strLower v == "_blank"
    · refine ⟨v, by simp [hv, ht], by simpa using hv⟩
    · exact ⟨"_blank", by simp [hv], by decide⟩

theorem decodeStep_target (env : Env) (h : String) (t : ATag) :
    ((decodeStep env h t).2.1).target = t.target := by
  unfold decodeStep
  cases hdc : doubleTrackCapture h <;> simp

theorem fixExternal_survivor_target (env : Env) (h : String) (t : ATag)
    (u : ATag) (tl : LinksTally)
    (hfix : fixExternalLink env h t = (some u, tl)) :
    ∃ v, u.target = some v ∧ strLower v = "_blank" := by
  by_cases hr : externalRemovable h t = true
  · rw [fixExternal_removable env h t hr] at hfix
    simp at hfix
  · have hr' : externalRemovable h t = false := by simpa using hr
    rcases hrt : retargetStep t with ⟨t1, rt⟩
    rcases hdc : decodeStep env h t1 with ⟨h2, t2, dec⟩
    have hex : ∃ p, statusStep env h2 t2 = p := ⟨_, rfl⟩
    obtain ⟨⟨t3, unc, brk⟩, hst⟩ := hex
    have hfx : fixExternalLink env h t = (some t3, ⟨0, rt, dec, brk, unc⟩) := by
      simp [fixExternalLink, hr', hrt, hdc, hst]
    rw [hfx] at hfix
    have hu : t3 = u := by
      have hfst := congrArg Prod.fst hfix
      simpa using hfst
    subst hu
    obtain ⟨v, hv1, hv2⟩ := retargetStep_target t
    rw [hrt] at hv1
    have ht2 : t2.target = t1.target := by
      have hdt := decodeStep_target env h t1
      rw [hdc] at hdt
      exact hdt
    have ht3 : t3.target = t2.target := by
      have hs := (statusStep_preserves env h2 t2).2
      rw [hst] at hs
      exact hs
    exact ⟨v, by rw [ht3, ht2]; exact hv1, hv2⟩

/-! ## C1 -/

/-- C1: in `_set_content`, a dict descriptor with none of the capability
keys is meant to abort with a descriptive `UnknownTransform`, but evaluating
its argument `hyperlinks + formats + navigation + lists + {'image'}` adds
Python sets with `+`, which is unsupported: the compile (and a whole
`apply()` call reaching it) aborts with a bare `TypeError` instead, naming
neither the descriptor nor the accepted keys. -/
theorem setContent_bad_descriptor_typeerror :
    setContent noopEnv (.dict [("foo", .str "bar")]) = .error .typeError
    ∧ applyTransforms noopEnv ⟨true, [⟨"A", .ok (some ()), .ok none⟩]⟩
        [("A", .dict [("body", .list [.dict [("foo", .str "bar")]])])]
        = .error .typeError := by
  constructor
  · simp [setContent, compileItem, hasAnyKey, hyperlinkKeys, formatKeys, navigationKeys,
      listKeys, pySetAdd, Bind.bind, Except.bind]
  · have hA : pyStrip "A" = "A" := by decide
    simp [applyTransforms, applyTop, goArticles, processArticle, bodyTransformStep,
      titleTransformStep, finishArticle, pyGet, hA,
      asDict, asDictKeys, hasAnyKey, addLeftRight, addParagraphs, compileParas, setContent, compileItem,
      pySetAdd, hyperlinkKeys, formatKeys, navigationKeys, listKeys, pyDelE,
      Bind.bind, Except.bind]

/-! ## C2 -/

/-- C2: `review()` removes every external link whose `href` is the
`##TrackClick##` placeholder or empty or whose text is blank, the `removed`
tally counts exactly those links, and such a link gets no other repair step
(its fix returns removal only). -/
theorem review_removes_useless_external_links (env : Env) (doc : List ATag) :
    (review env doc).2.links.removed = doc.countP removableExternal
    ∧ ∀ t h, t.href = some h → removableExternal t = true →
        fixExternalLink env h t = (none, { removed := 1 }) := by
  constructor
  · rw [review_links_tally]
    exact pass1_removed_count env doc
  · intro t h ht hrm
    apply fixExternal_removable
    simp [removableExternal, ht] at hrm
    exact hrm.2

/-- Witness for C2 on a concrete two-link document. -/
theorem review_removes_useless_external_links_witness :
    (review noopEnv [⟨some "", none, none, ["X"]⟩,
        ⟨some "https://a.bc", some "_blank", none, ["Y"]⟩]).2.links.removed = 1
    ∧ fixExternalLink noopEnv "" ⟨some "", none, none, ["X"]⟩ = (none, { removed := 1 }) := by
  have hh := review_removes_useless_external_links noopEnv
    [⟨some "", none, none, ["X"]⟩, ⟨some "https://a.bc", some "_blank", none, ["Y"]⟩]
  exact ⟨by rw [hh.1]; decide, hh.2 ⟨some "", none, none, ["X"]⟩ "" rfl (by decide)⟩

/-! ## C3 -/

/-- C3: for a surviving external link, with `h2` the href after the decode
step, the status lookup on the `##...##`-stripped URL marks the link
`*UNCHECKED*` on 403 (tally `unchecked`), `*BROKEN <status>*` on other
4xx/5xx (tally `broken`), and leaves it unchanged otherwise; an href still
fully wrapped in `##...##` gets no lookup and no such tally. -/
theorem fixExternalLink_status_marking (env : Env) (t : ATag) (h : String)
    (hnr : externalRemovable h t = false)
    (t1 : ATag) (rt : Nat) (hrt : retargetStep t = (t1, rt))
    (h2 : String) (t2 : ATag) (dec : Nat)
    (hdc : decodeStep env h t1 = (h2, t2, dec)) :
    (fullyWrapped h2.toList = false →
       (env.webStatus (stripLeadingWrap h2) = 403 →
          fixExternalLink env h t
            = (some (prependChild "*UNCHECKED*" t2), ⟨0, rt, dec, 0, 1⟩))
       ∧ (∀ s : Int, env.webStatus (stripLeadingWrap h2) = s →
            400 ≤ s → s < 600 → s ≠ 403 →
            fixExternalLink env h t
              = (some (prependChild ("*BROKEN " ++ toString s ++ "*") t2),
                 ⟨0, rt, dec, 1, 0⟩))
       ∧ (∀ s : Int, env.webStatus (stripLeadingWrap h2) = s →
            s < 400 ∨ 600 ≤ s →
            fixExternalLink env h t = (some t2, ⟨0, rt, dec, 0, 0⟩)))
    ∧ (fullyWrapped h2.toList = true →
        fixExternalLink env h t = (some t2, ⟨0, rt, dec, 0, 0⟩)) := by
  constructor
  · intro hw
    have hwd : fullyWrapped h2.data = false := hw
    refine ⟨?_, ?_, ?_⟩
    · intro hst
      simp [fixExternalLink, hnr, hrt, hdc, statusStep, hw, hwd, hst]
    · intro s hs h4 h6 hne
      simp [fixExternalLink, hnr, hrt, hdc, statusStep, hw, hwd, hs, hne, h4, h6]
    · intro s hs hout
      have hne' : ¬(s = 403) := by omega
      have hno : ¬(400 ≤ s ∧ s < 600) := by omega
      simp [fixExternalLink, hnr, hrt, hdc, statusStep, hw, hwd, hs, hne', hno]
  · intro hw
    have hwd : fullyWrapped h2.data = true := hw
    simp [fixExternalLink, hnr, hrt, hdc, statusStep, hw, hwd]

/-- Witness for C3: a 403 lookup prepends `*UNCHECKED*`. -/
theorem fixExternalLink_status_marking_witness :
    fixExternalLink
      { webStatus := fun _ => 403, getEmail := fun _ => ⟨true, "ok"⟩, unquotePlus := id,
        quote := id, unquote := id, urljoin := fun a b => a ++ b, imageDims := fun _ => (1, 1) }
      "https://a.bc" ⟨some "https://a.bc", none, none, ["Y"]⟩
      = (some ⟨some "https://a.bc", some "_blank", none, ["*UNCHECKED*", "Y"]⟩,
         ⟨0, 1, 0, 0, 1⟩) := by
  have hh := fixExternalLink_status_marking
    { webStatus := fun _ => 403, getEmail := fun _ => ⟨true, "ok"⟩, unquotePlus := id,
      quote := id, unquote := id, urljoin := fun a b => a ++ b, imageDims := fun _ => (1, 1) }
    ⟨some "https://a.bc", none, none, ["Y"]⟩ "https://a.bc" (by decide)
    ⟨some "https://a.bc", some "_blank", none, ["Y"]⟩ 1 (by decide)
    "https://a.bc" ⟨some "https://a.bc", some "_blank", none, ["Y"]⟩ 0 (by decide)
  exact hh.1 (by decide) |>.1 rfl

/-! ## C5 -/

/-- C5: a surviving external link whose href matches the double-tracking
redirect pattern gets its href replaced by the percent-decoded `url=`
parameter (nothing of the wrapper remains) and tallies `decoded` once. -/
theorem fixExternalLink_decodes_double_tracking (env : Env) (t : ATag) (h cap : String)
    (hnr : externalRemovable h t = false)
    (hcap : doubleTrackCapture h = some cap) :
    ∃ u tl, fixExternalLink env h t = (some u, tl)
      ∧ u.href = some (env.unquotePlus cap) ∧ tl.decoded = 1 := by
  rcases hrt : retargetStep t with ⟨t1, rt⟩
  have hdc : decodeStep env h t1
      = (env.unquotePlus cap, { t1 with href := some (env.unquotePlus cap) }, 1) := by
    simp [decodeStep, hcap]
  have hex : ∃ p, statusStep env (env.unquotePlus cap)
      { t1 with href := some (env.unquotePlus cap) } = p := ⟨_, rfl⟩
  obtain ⟨⟨t3, unc, brk⟩, hst⟩ := hex
  have hpre := statusStep_preserves env (env.unquotePlus cap)
      { t1 with href := some (env.unquotePlus cap) }
  rw [hst] at hpre
  refine ⟨t3, ⟨0, rt, 1, brk, unc⟩, ?_, ?_, rfl⟩
  · simp [fixExternalLink, hnr, hrt, hdc, hst]
  · simpa using hpre.1

/-- Witness for C5 on the platform redirect URL with `url=abc`. -/
theorem fixExternalLink_decodes_double_tracking_witness :
    ∃ u tl,
      fixExternalLink noopEnv
          "http://www.ismailiinsight.org/enewsletterpro/t.aspx?url=abc"
          ⟨some "http://www.ismailiinsight.org/enewsletterpro/t.aspx?url=abc",
            none, none, ["Y"]⟩
        = (some u, tl) ∧ u.href = some "abc" ∧ tl.decoded = 1 :=
  fixExternalLink_decodes_double_tracking noopEnv
    ⟨some "http://www.ismailiinsight.org/enewsletterpro/t.aspx?url=abc", none, none, ["Y"]⟩
    "http://www.ismailiinsight.org/enewsletterpro/t.aspx?url=abc" "abc"
    (by decide) (by decide)

/-! ## C7 -/

/-- C7: for a mailto link with non-blank text, every literal `%20` is first
stripped from the href (tallying `cleaned` iff any was present), the address
after the 7-character `mailto:` prefix of the cleaned href is looked up, and
a valid address leaves the link unchanged, reason `accepted_email` prepends
`*UNCHECKED*` (tally `unchecked`), any other invalid reason prepends
`*INVALID <reason>*` (tally `invalid`). -/
theorem fixEmail_clean_and_mark (env : Env) (t : ATag) (h : String)
    (hnb : isBlankText (tagText t) = false) :
    ((env.getEmail ((if has20 h.toList then strip20 h else h).drop 7)).is_valid = true →
       fixEmail env h t
         = (some (if has20 h.toList then { t with href := some (strip20 h) } else t),
            { cleaned := if has20 h.toList then 1 else 0 }))
    ∧ ((env.getEmail ((if has20 h.toList then strip20 h else h).drop 7)).is_valid = false →
       (env.getEmail ((if has20 h.toList then strip20 h else h).drop 7)).reason
           = "accepted_email" →
       fixEmail env h t
         = (some (prependChild "*UNCHECKED*"
              (if has20 h.toList then { t with href := some (strip20 h) } else t)),
            { cleaned := if has20 h.toList then 1 else 0, unchecked := 1 }))
    ∧ ((env.getEmail ((if has20 h.toList then strip20 h else h).drop 7)).is_valid = false →
       (env.getEmail ((if has20 h.toList then strip20 h else h).drop 7)).reason
           ≠ "accepted_email" →
       fixEmail env h t
         = (some (prependChild ("*INVALID "
                ++ (env.getEmail ((if has20 h.toList then strip20 h else h).drop 7)).reason
                ++ "*")
              (if has20 h.toList then { t with href := some (strip20 h) } else t)),
            { cleaned := if has20 h.toList then 1 else 0, invalid := 1 })) := by
  by_cases h20 : has20 h.toList = true
  · have h20d : has20 h.data = true := h20
    refine ⟨?_, ?_, ?_⟩
    · intro hv
      simp only [h20, if_true] at hv
      simp [fixEmail, hnb, h20, h20d, hv]
    · intro hv hr
      simp only [h20, if_true] at hv hr
      simp [fixEmail, hnb, h20, h20d, hv, hr]
    · intro hv hr
      simp only [h20, if_true] at hv hr
      simp [fixEmail, hnb, h20, h20d, hv, hr]
  · have h20' : has20 h.toList = false := by simpa using h20
    have h20d : has20 h.data = false := h20'
    refine ⟨?_, ?_, ?_⟩
    · intro hv
      simp only [h20', Bool.false_eq_true, if_false] at hv
      simp [fixEmail, hnb, h20', h20d, hv]
    · intro hv hr
      simp only [h20', Bool.false_eq_true, if_false] at hv hr
      simp [fixEmail, hnb, h20', h20d, hv, hr]
    · intro hv hr
      simp only [h20', Bool.false_eq_true, if_false] at hv hr
      simp [fixEmail, hnb, h20', h20d, hv, hr]

/-- Witness for C7 on the spec's example `mailto:%20a%20@b.com`. -/
theorem fixEmail_clean_and_mark_witness :
    fixEmail noopEnv "mailto:%20a%20@b.com"
        ⟨some "mailto:%20a%20@b.com", none, none, ["Y"]⟩
      = (some ⟨some "mailto:a@b.com", none, none, ["Y"]⟩, ⟨0, 1, 0, 0⟩) := by
  have hh := fixEmail_clean_and_mark noopEnv
    ⟨some "mailto:%20a%20@b.com", none, none, ["Y"]⟩ "mailto:%20a%20@b.com" (by decide)
  have hc := hh.1 rfl
  simpa using hc

/-! ## C8 -/

/-- Counterexample to C8 as stated: a body whose first child is a `p`
followed by the gray wrapper `div`.  The claim predicts a new wrapper and
`background = 1`, but `repair` inspects the first direct *div* child
(`find('div', recursive=False)`), finds the gray one, and leaves the body
unchanged with `background = 0`. -/
theorem repairBackground_first_child_counterexample :
    firstChildIsGrayWrapper
        [HNode.elem "p" [] [], HNode.elem "div" [("style", grayStyle)] []] = false
      ∧ repairBackground
          [HNode.elem "p" [] [], HNode.elem "div" [("style", grayStyle)] []]
          = .ok ([HNode.elem "p" [] [], HNode.elem "div" [("style", grayStyle)] []], 0) :=
  ⟨rfl, rfl⟩

/-- C8 (amended): `repair`'s background step keys on the body's first
direct `div` child.  If there is none, or its `style` differs from
`background-color: #595959;`, a wrapper `div` with that style receives all
of the body's children in order and becomes the sole child (`background`
tallies 1); if the first `div` child carries exactly that style the body is
unchanged (`background` 0); a first `div` child without a `style` attribute
raises `KeyError`. -/
theorem repairBackground_first_div_child (body : List HNode) :
    (findDivChild body = none →
      repairBackground body = .ok ([HNode.elem "div" [("style", grayStyle)] body], 1))
    ∧ (∀ nm attrs cs, findDivChild body = some (.elem nm attrs cs) →
        (getAttr attrs "style" = none →
          repairBackground body = .error (.keyError "style"))
        ∧ (∀ st, getAttr attrs "style" = some st → st ≠ grayStyle →
            repairBackground body = .ok ([HNode.elem "div" [("style", grayStyle)] body], 1))
        ∧ (getAttr attrs "style" = some grayStyle →
            repairBackground body = .ok (body, 0))) := by
  constructor
  · intro h
    simp [repairBackground, h]
  · intro nm attrs cs h
    refine ⟨?_, ?_, ?_⟩
    · intro hst
      simp [repairBackground, h, hst]
    · intro st hst hne
      simp [repairBackground, h, hst, hne]
    · intro hst
      simp [repairBackground, h, hst]

/-- Witness for the amended C8: a body with no `div` child gets wrapped. -/
theorem repairBackground_first_div_child_witness :
    findDivChild [HNode.text "x"] = none
      ∧ repairBackground [HNode.text "x"]
          = .ok ([HNode.elem "div" [("style", grayStyle)] [HNode.text "x"]], 1) :=
  ⟨rfl, (repairBackground_first_div_child [HNode.text "x"]).1 rfl⟩

/-! ## C10 -/

/-- C10: a `div` whose following siblings include a `table` but no `div`
makes `_is_before_body` fall through its guard and dereference the absent
next `div` sibling (`next_div.text`), raising `AttributeError` instead of
returning a boolean. -/
theorem isBeforeBody_table_without_div_raises (sibs : List SibTag)
    (htab : sibs.any (fun s => s.name == "table") = true)
    (hdiv : ∀ s ∈ sibs, s.name ≠ "div") :
    isBeforeBody "div" sibs = .error .attributeError := by
  have h1 : findNextSiblingNamed "div" sibs = none := by
    unfold findNextSiblingNamed
    rw [List.find?_eq_none]
    intro x hx
    simpa using hdiv x hx
  have h2 : (findNextSiblingNamed "table" sibs).isSome = true := by
    unfold findNextSiblingNamed
    rw [List.find?_isSome]
    simpa [List.any_eq_true] using htab
  unfold isBeforeBody
  rw [h1]
  simp [Option.isNone_iff_eq_none.mpr h1]
  intro hcon
  rw [hcon] at h2
  simp at h2

/-- Witness for C10: a lone following `table` sibling. -/
theorem isBeforeBody_table_without_div_raises_witness :
    isBeforeBody "div" [⟨"table", "x", false⟩] = .error .attributeError :=
  isBeforeBody_table_without_div_raises [⟨"table", "x", false⟩] (by decide) (by decide)

theorem extTargetInv_prepend (s : String) (t : ATag) (ht : extTargetInv t) :
    extTargetInv (prependChild s t) := by
  intro h hh hext
  exact ht h hh hext

theorem mailto_strip20_not_ext (h : String) (hm : isMailtoHref h = true) :
    isExternalHref (strip20 h) = false := by
  unfold isMailtoHref at hm
  rcases hl : h.toList with _ | ⟨c, cs⟩
  · rw [hl] at hm
    simp [stripCI] at hm
  · rw [hl] at hm
    have hcm : c.toLower = 'm' := by
      by_contra hne
      have hb : (c.toLower == 'm') = false := by simpa using hne
      simp [stripCI, hb] at hm
    have hcp : c ≠ '%' := by
      intro hc
      rw [hc] at hcm
      exact absurd hcm (by decide)
    have hch : c ≠ '#' := by
      intro hc
      rw [hc] at hcm
      exact absurd hcm (by decide)
    unfold strip20
    rw [hl, strip20L_cons_ne c cs hcp]
    unfold isExternalHref
    rw [List.toList_asString]
    have hsharp : (c.toLower == '#') = false := by
      rw [hcm]; decide
    have hh' : (c.toLower == 'h') = false := by
      rw [hcm]; decide
    have e1 : isExtAlt1 (c :: strip20L cs) = false := by
      simp [isExtAlt1, stripCI, stripScheme, hsharp, hh']
    have e2 : fullyWrapped (c :: strip20L cs) = false := by
      simp [fullyWrapped, List.take_succ_cons, hch]
    simp [e1, e2]


theorem pass1_target_inv (env : Env) (doc : List ATag) :
    ∀ u ∈ (reviewExternalPass env doc).1, extTargetInv u := by
  induction doc with
  | nil => simp [reviewExternalPass]
  | cons t rest ih =>
    rcases hrec : reviewExternalPass env rest with ⟨rest', tally⟩
    rw [hrec] at ih
    simp only at ih
    intro u hu
    cases ht : t.href with
    | none =>
      rw [reviewExternalPass, hrec, ht] at hu
      simp at hu
      rcases hu with hu | hu
      · subst hu
        intro h' hh' _
        rw [ht] at hh'
        cases hh'
      · exact ih u hu
    | some h =>
      by_cases hext : isExternalHref h = true
      · rcases hfix : fixExternalLink env h t with ⟨uo, tl⟩
        rcases uo with _ | u0
        · rw [reviewExternalPass, hrec, ht] at hu
          simp [hext, hfix] at hu
          exact ih u hu
        · rw [reviewExternalPass, hrec, ht] at hu
          simp [hext, hfix] at hu
          rcases hu with hu | hu
          · subst hu
            obtain ⟨v, hv1, hv2⟩ := fixExternal_survivor_target env h t u tl hfix
            intro h' _ _
            exact ⟨v, hv1, hv2⟩
          · exact ih u hu
      · rw [reviewExternalPass, hrec, ht] at hu
        simp [hext] at hu
        rcases hu with hu | hu
        · subst hu
          intro h' hh' hext'
          rw [ht] at hh'
          injection hh' with he
          subst he
          exact absurd hext' (by simpa using hext)
        · exact ih u hu

theorem pass2_target_inv (anchors : List String) (d : List ATag)
    (hall : ∀ t ∈ d, extTargetInv t) :
    ∀ u ∈ (reviewInternalPass anchors d).1, extTargetInv u := by
  induction d with
  | nil => simp [reviewInternalPass]
  | cons t rest ih =>
    have hallr : ∀ t' ∈ rest, extTargetInv t' := fun t' h' => hall t' (List.mem_cons_of_mem _ h')
    have hallt : extTargetInv t := hall t (List.mem_cons_self _ _)
    rcases hrec : reviewInternalPass anchors rest with ⟨rest', tally⟩
    have ih' := ih hallr
    rw [hrec] at ih'
    simp only at ih'
    intro u hu
    cases ht : t.href with
    | none =>
      rw [reviewInternalPass, hrec, ht] at hu
      simp at hu
      rcases hu with hu | hu
      · subst hu; exact hallt
      · exact ih' u hu
    | some h =>
      by_cases hint : isInternalHref h = true
      · rw [reviewInternalPass, hrec, ht] at hu
        by_cases hb : isBlankText (tagText t) = true
        · simp [hint, fixInternalLink, hb] at hu
          exact ih' u hu
        · have hb' : isBlankText (tagText t) = false := by simpa using hb
          by_cases hc : h.drop 1 ∈ anchors
          · simp [hint, fixInternalLink, hb', hc] at hu
            rcases hu with hu | hu
            · subst hu; exact hallt
            · exact ih' u hu
          · simp [hint, fixInternalLink, hb', hc] at hu
            rcases hu with hu | hu
            · subst hu
              exact extTargetInv_prepend _ _ hallt
            · exact ih' u hu
      · rw [reviewInternalPass, hrec, ht] at hu
        simp [hint] at hu
        rcases hu with hu | hu
        · subst hu; exact hallt
        · exact ih' u hu

theorem fixEmail_survivor_shape (env : Env) (h : String) (t : ATag)
    (u : ATag) (tl : EmailsTally)
    (hfix : fixEmail env h t = (some u, tl)) :
    u.target = t.target ∧ (u.href = t.href ∨ u.href = some (strip20 h)) := by
  by_cases hb : isBlankText (tagText t) = true
  · simp [fixEmail, hb] at hfix
  · have hb' : isBlankText (tagText t) = false := by simpa using hb
    by_cases h20 : has20 h.toList = true
    · have h20d : has20 h.data = true := h20
      rcases hv : (env.getEmail ((strip20 h).drop 7)).is_valid with _ | _
      · by_cases hr : (env.getEmail ((strip20 h).drop 7)).reason = "accepted_email"
        · simp [fixEmail, hb', h20, h20d, hv, hr, prependChild] at hfix
          rcases hfix with ⟨hfix, _⟩
          rw [← hfix]
          simp
        · have hr' : ((env.getEmail ((strip20 h).drop 7)).reason == "accepted_email") = false := by
            simpa using hr
          simp [fixEmail, hb', h20, h20d, hv, hr', prependChild] at hfix
          rcases hfix with ⟨hfix, _⟩
          rw [← hfix]
          simp
      · simp [fixEmail, hb', h20, h20d, hv] at hfix
        rcases hfix with ⟨hfix, _⟩
        rw [← hfix]
        simp
    · have h20' : has20 h.toList = false := by simpa using h20
      have h20d : has20 h.data = false := h20'
      rcases hv : (env.getEmail (h.drop 7)).is_valid with _ | _
      · by_cases hr : (env.getEmail (h.drop 7)).reason = "accepted_email"
        · simp [fixEmail, hb', h20', h20d, hv, hr, prependChild] at hfix
          rcases hfix with ⟨hfix, _⟩
          rw [← hfix]
          simp
        · have hr' : ((env.getEmail (h.drop 7)).reason == "accepted_email") = false := by
            simpa using hr
          simp [fixEmail, hb', h20', h20d, hv, hr', prependChild] at hfix
          rcases hfix with ⟨hfix, _⟩
          rw [← hfix]
          simp
      · simp [fixEmail, hb', h20', h20d, hv] at hfix
        rcases hfix with ⟨hfix, _⟩
        rw [← hfix]
        simp


theorem pass3_target_inv (env : Env) (d : List ATag)
    (hall : ∀ t ∈ d, extTargetInv t) :
    ∀ u ∈ (reviewEmailPass env d).1, extTargetInv u := by
  induction d with
  | nil => simp [reviewEmailPass]
  | cons t rest ih =>
    have hallr : ∀ t' ∈ rest, extTargetInv t' := fun t' h' => hall t' (List.mem_cons_of_mem _ h')
    have hallt : extTargetInv t := hall t (List.mem_cons_self _ _)
    rcases hrec : reviewEmailPass env rest with ⟨rest', tally⟩
    have ih' := ih hallr
    rw [hrec] at ih'
    simp only at ih'
    intro u hu
    cases ht : t.href with
    | none =>
      rw [reviewEmailPass, hrec, ht] at hu
      simp at hu
      rcases hu with hu | hu
      · subst hu; exact hallt
      · exact ih' u hu
    | some h =>
      by_cases hm : isMailtoHref h = true
      · rcases hfix : fixEmail env h t with ⟨uo, tl⟩
        rcases uo with _ | u0
        · rw [reviewEmailPass, hrec, ht] at hu
          simp [hm, hfix] at hu
          exact ih' u hu
        · rw [reviewEmailPass, hrec, ht] at hu
          simp [hm, hfix] at hu
          rcases hu with hu | hu
          · subst hu
            obtain ⟨htar, hhr⟩ := fixEmail_survivor_shape env h t u tl hfix
            intro h' hh' hext'
            rcases hhr with hsame | hstrip
            · obtain ⟨v, hv1, hv2⟩ := hallt h' (by rw [← hsame, hh']) hext'
              exact ⟨v, by rw [htar]; exact hv1, hv2⟩
            · rw [hstrip] at hh'
              injection hh' with he
              subst he
              exact absurd hext' (by simp [mailto_strip20_not_ext h hm])
          · exact ih' u hu
      · rw [reviewEmailPass, hrec, ht] at hu
        simp [hm] at hu
        rcases hu with hu | hu
        · subst hu; exact hallt
        · exact ih' u hu

theorem retargetStep_tally (t : ATag) :
    (retargetStep t).2 = if badTargetATag t then 1 else 0 := by
  unfold retargetStep badTargetATag
  cases t.target with
  | none => simp
  | some v => by_cases hv : (strLower v == "_blank") = true <;> simp [hv]

theorem fixExternal_tally_retargetted (env : Env) (h : String) (t : ATag)
    (hr : externalRemovable h t = false) :
    (fixExternalLink env h t).2.retargetted = (retargetStep t).2 := by
  rcases hrt : retargetStep t with ⟨t1, rt⟩
  rcases hdc : decodeStep env h t1 with ⟨h2, t2, dec⟩
  rcases hst : statusStep env h2 t2 with ⟨t3, unc, brk⟩
  simp [fixExternalLink, hr, hrt, hdc, hst]

theorem pass1_retargetted_count (env : Env) (doc : List ATag) :
    (reviewExternalPass env doc).2.retargetted
      = doc.countP (fun t => isExternalATag t && !removableExternal t && badTargetATag t) := by
  induction doc with
  | nil => simp [reviewExternalPass]
  | cons t rest ih =>
    rcases hrec : reviewExternalPass env rest with ⟨rest', tally⟩
    rw [hrec] at ih
    simp only at ih
    cases ht : t.href with
    | none =>
      have hp : (isExternalATag t && !removableExternal t && badTargetATag t) = false := by
        simp [isExternalATag, ht]
      simp [reviewExternalPass, hrec, ht, List.countP_cons, hp, ih]
    | some h =>
      by_cases hext : isExternalHref h = true
      · by_cases hrem : externalRemovable h t = true
        · have hp : (isExternalATag t && !removableExternal t && badTargetATag t) = false := by
            simp [removableExternal, ht, hext, hrem]
          simp [reviewExternalPass, hrec, ht, hext, fixExternal_removable env h t hrem,
            List.countP_cons, hp, addLinksTally, ih]
        · have hrem' : externalRemovable h t = false := by simpa using hrem
          have hp : (isExternalATag t && !removableExternal t && badTargetATag t)
              = badTargetATag t := by
            simp [isExternalATag, removableExternal, ht, hext, hrem']
          rcases hfix : fixExternalLink env h t with ⟨uo, tl⟩
          have htl : tl.retargetted = if badTargetATag t then 1 else 0 := by
            have h1 := fixExternal_tally_retargetted env h t hrem'
            rw [hfix] at h1
            simpa [retargetStep_tally] using h1
          have hsm : uo.isSome := by
            have h2 := (fixExternal_surviving env h t hrem').2
            rw [hfix] at h2
            simpa using h2
          rcases uo with _ | u
          · simp at hsm
          · simp [reviewExternalPass, hrec, ht, hext, hfix, List.countP_cons, hp,
              addLinksTally, ih, htl]
            by_cases hbt : badTargetATag t = true <;> simp [hbt] <;> omega
      · have hp : (isExternalATag t && !removableExternal t && badTargetATag t) = false := by
          simp [isExternalATag, ht, hext]
        simp [reviewExternalPass, hrec, ht, hext, List.countP_cons, hp, ih]


/-- Counterexample to C4 as stated: an external link whose prior `target`
is `_BLANK` survives `review()` with its target literally `_BLANK`, which
is not equal to `_blank`; the code only rewrites targets that do not
lowercase to `_blank`. -/
theorem review_retarget_counterexample :
    (review noopEnv [⟨some "https://a.bc", some "_BLANK", none, ["Y"]⟩]).1
      = [⟨some "https://a.bc", some "_BLANK", none, ["Y"]⟩]
    ∧ ("_BLANK" : String) ≠ "_blank" := by
  constructor
  · decide
  · decide

/-- C4 (amended): after `review()`, every surviving tag whose href is
external-shaped carries a target that is case-insensitively `_blank`, and
the `retargetted` tally counts exactly the surviving external links whose
target was absent or not case-insensitively `_blank`. -/
theorem review_retarget_case_insensitive (env : Env) (doc : List ATag) :
    (∀ u ∈ (review env doc).1, extTargetInv u)
    ∧ (review env doc).2.links.retargetted
        = doc.countP (fun t => isExternalATag t && !removableExternal t && badTargetATag t) := by
  constructor
  · intro u hu
    rcases h1 : reviewExternalPass env doc with ⟨d1, lt⟩
    rcases h2 : reviewInternalPass (d1.filterMap (·.name)) d1 with ⟨d2, at2⟩
    rcases h3 : reviewEmailPass env d2 with ⟨d3, et⟩
    have hu3 : u ∈ d3 := by
      rw [review, h1] at hu
      simp only at hu
      rw [h2] at hu
      simp only at hu
      rw [h3] at hu
      simpa using hu
    have i1 : ∀ x ∈ d1, extTargetInv x := by
      have hp := pass1_target_inv env doc
      rw [h1] at hp
      simpa using hp
    have i2 : ∀ x ∈ d2, extTargetInv x := by
      have hp := pass2_target_inv (d1.filterMap (·.name)) d1 i1
      rw [h2] at hp
      simpa using hp
    have i3 : ∀ x ∈ d3, extTargetInv x := by
      have hp := pass3_target_inv env d2 i2
      rw [h3] at hp
      simpa using hp
    exact i3 u hu3
  · rw [review_links_tally]
    exact pass1_retargetted_count env doc

/-- Witness for the amended C4 on a link with no prior target. -/
theorem review_retarget_case_insensitive_witness :
    (∃ v, (ATag.mk (some "https://a.bc") (some "_blank") none ["Y"]).target = some v
        ∧ strLower v = "_blank")
    ∧ (review noopEnv [⟨some "https://a.bc", none, none, ["Y"]⟩]).2.links.retargetted = 1 := by
  have hh := review_retarget_case_insensitive noopEnv [⟨some "https://a.bc", none, none, ["Y"]⟩]
  refine ⟨hh.1 ⟨some "https://a.bc", some "_blank", none, ["Y"]⟩ (by decide)
    "https://a.bc" rfl (by decide), ?_⟩
  rw [hh.2]
  decide


theorem review_anchors_tally (env : Env) (doc : List ATag) :
    (review env doc).2.anchors
      = (reviewInternalPass (((reviewExternalPass env doc).1).filterMap (·.name))
          (reviewExternalPass env doc).1).2 := by
  rcases h1 : reviewExternalPass env doc with ⟨d1, lt⟩
  rcases h2 : reviewInternalPass (d1.filterMap (·.name)) d1 with ⟨d2, at2⟩
  rcases h3 : reviewEmailPass env d2 with ⟨d3, et⟩
  simp [review, h1, h2, h3]

theorem pass2_marked_count (anchors : List String) (d : List ATag) :
    (reviewInternalPass anchors d).2.marked
      = d.countP (fun t => isInternalATag t && !isBlankText (tagText t)
          && !(decide ((t.href.getD "").drop 1 ∈ anchors))) := by
  induction d with
  | nil => simp [reviewInternalPass]
  | cons t rest ih =>
    rcases hrec : reviewInternalPass anchors rest with ⟨rest', tally⟩
    rw [hrec] at ih
    simp only at ih
    cases ht : t.href with
    | none =>
      have hti : isInternalATag t = false := by simp [isInternalATag, ht]
      simp [reviewInternalPass, hrec, ht, List.countP_cons, hti, ih]
    | some h =>
      by_cases hint : isInternalHref h = true
      · have hti : isInternalATag t = true := by simp [isInternalATag, ht, hint]
        by_cases hb : isBlankText (tagText t) = true
        · simp [reviewInternalPass, hrec, ht, hint, fixInternalLink, hb,
            List.countP_cons, hti, addAnchorsTally, ih]
        · have hb' : isBlankText (tagText t) = false := by simpa using hb
          by_cases hc : h.drop 1 ∈ anchors
          · simp [reviewInternalPass, hrec, ht, hint, fixInternalLink, hb', hc,
              List.countP_cons, hti, addAnchorsTally, ih]
          · simp [reviewInternalPass, hrec, ht, hint, fixInternalLink, hb', hc,
              List.countP_cons, hti, addAnchorsTally, ih]
            omega
      · have hti : isInternalATag t = false := by simp [isInternalATag, ht, hint]
        simp [reviewInternalPass, hrec, ht, hint, List.countP_cons, hti, ih]

/-- C6: with the anchor names collected from the `a` elements (after the
external pass, before internal links are processed), `review` marks exactly
the non-blank internal links whose href-name is missing from that set with
a prepended `*MISSING <name>*` (tally `marked`), and removes internal links
with blank text instead. -/
theorem review_marks_missing_anchor_links (env : Env) (doc : List ATag) :
    ((review env doc).2.anchors.marked
      = ((reviewExternalPass env doc).1).countP
          (fun t => isInternalATag t && !isBlankText (tagText t)
            && !(decide ((t.href.getD "").drop 1
                  ∈ ((reviewExternalPass env doc).1).filterMap (·.name)))))
    ∧ (∀ anchors t h, t.href = some h → isInternalHref h = true →
        isBlankText (tagText t) = false →
        fixInternalLink anchors h t
          = (if h.drop 1 ∈ anchors then (some t, {})
             else (some (prependChild ("*MISSING " ++ h.drop 1 ++ "*") t), { marked := 1 })))
    ∧ (∀ anchors t h, t.href = some h → isInternalHref h = true →
        isBlankText (tagText t) = true →
        fixInternalLink anchors h t = (none, { removed := 1 })) := by
  refine ⟨?_, ?_, ?_⟩
  · rw [review_anchors_tally]
    exact pass2_marked_count _ _
  · intro anchors t h _ _ hb
    by_cases hc : h.drop 1 ∈ anchors
    · simp [fixInternalLink, hb, hc]
    · simp [fixInternalLink, hb, hc]
  · intro anchors t h _ _ hb
    simp [fixInternalLink, hb]

/-- Witness for C6: `#waldo` is marked, `#northpole` is not, blanks are
removed. -/
theorem review_marks_missing_anchor_links_witness :
    (review noopEnv [⟨none, none, some "northpole", ["A"]⟩,
        ⟨some "#northpole", none, none, ["GOOD"]⟩,
        ⟨some "#waldo", none, none, ["BAD"]⟩]).2.anchors.marked = 1
    ∧ fixInternalLink ["northpole"] "#waldo" ⟨some "#waldo", none, none, ["BAD"]⟩
        = (some ⟨some "#waldo", none, none, ["*MISSING waldo*", "BAD"]⟩, { marked := 1 })
    ∧ fixInternalLink ["northpole"] "#x" ⟨some "#x", none, none, [" "]⟩
        = (none, { removed := 1 }) := by
  have hh := review_marks_missing_anchor_links noopEnv
    [⟨none, none, some "northpole", ["A"]⟩,
     ⟨some "#northpole", none, none, ["GOOD"]⟩,
     ⟨some "#waldo", none, none, ["BAD"]⟩]
  refine ⟨?_, ?_, ?_⟩
  · rw [hh.1]
    decide
  · have hx := hh.2.1 ["northpole"] ⟨some "#waldo", none, none, ["BAD"]⟩ "#waldo"
      rfl (by decide) (by decide)
    simpa using hx
  · exact hh.2.2 ["northpole"] ⟨some "#x", none, none, [" "]⟩ "#x" rfl (by decide) (by decide)
/-! ## Helper lemmas for the apply engine (C9) -/

theorem pyGet_eq_none {d : Transforms} {k : String} :
    pyGet d k = none ↔ k ∉ d.map Prod.fst := by
  induction d with
  | nil => simp [pyGet]
  | cons kv rest ih =>
    obtain ⟨k', v⟩ := kv
    by_cases hk : k' = k
    · subst hk
      simp [pyGet]
    · simp [pyGet, hk, ih, Ne.symm hk]

theorem pyGet_some_mem {d : Transforms} {k : String} {v : PyVal}
    (h : pyGet d k = some v) : (k, v) ∈ d := by
  induction d with
  | nil => simp [pyGet] at h
  | cons kv rest ih =>
    obtain ⟨k', v'⟩ := kv
    by_cases hk : k' = k
    · subst hk
      simp [pyGet] at h
      subst h
      exact List.mem_cons_self _ _
    · rw [pyGet] at h
      simp [hk] at h
      exact List.mem_cons_of_mem _ (ih h)

theorem pyGet_mem_nodup {d : Transforms} {kv : String × PyVal}
    (hnd : (d.map Prod.fst).Nodup) (hm : kv ∈ d) : pyGet d kv.1 = some kv.2 := by
  induction d with
  | nil => simp at hm
  | cons hd rest ih =>
    obtain ⟨k', v'⟩ := hd
    rw [List.map_cons] at hnd
    have hnd1 : k' ∉ rest.map Prod.fst := (List.nodup_cons.mp hnd).1
    have hnd2 : (rest.map Prod.fst).Nodup := (List.nodup_cons.mp hnd).2
    rcases List.mem_cons.mp hm with he | hm'
    · subst he
      simp [pyGet]
    · have hne : k' ≠ kv.1 := by
        intro hc
        apply hnd1
        rw [hc]
        exact List.mem_map_of_mem Prod.fst hm'
      rw [pyGet]
      simp only [beq_iff_eq, hne, if_false]
      exact ih hnd2 hm'

theorem pyDelE_present {d : Transforms} {k : String} {v : PyVal}
    (h : pyGet d k = some v) : pyDelE d k = .ok (eraseKey d k) := by
  induction d with
  | nil => simp [pyGet] at h
  | cons kv rest ih =>
    obtain ⟨k', v'⟩ := kv
    by_cases hk : k' = k
    · subst hk
      simp [pyDelE, eraseKey]
    · rw [pyGet] at h
      simp only [beq_iff_eq, hk, if_false] at h
      simp [pyDelE, eraseKey, hk, ih h]

theorem mem_eraseKey {d : Transforms} {k : String} {kv : String × PyVal}
    (h : kv ∈ eraseKey d k) : kv ∈ d := by
  induction d with
  | nil => simpa [eraseKey] using h
  | cons hd rest ih =>
    obtain ⟨k', v'⟩ := hd
    by_cases hk : k' = k
    · subst hk
      simp [eraseKey] at h
      exact List.mem_cons_of_mem _ h
    · simp only [eraseKey, beq_iff_eq, hk, if_false] at h
      rcases List.mem_cons.mp h with he | hm
      · subst he
        exact List.mem_cons_self _ _
      · exact List.mem_cons_of_mem _ (ih hm)

theorem keys_eraseKey_sub {d : Transforms} {k x : String}
    (h : x ∈ (eraseKey d k).map Prod.fst) : x ∈ d.map Prod.fst := by
  obtain ⟨kv, hkv, rfl⟩ := List.mem_map.mp h
  exact List.mem_map_of_mem _ (mem_eraseKey hkv)

theorem nodup_eraseKey {d : Transforms} {k : String}
    (hnd : (d.map Prod.fst).Nodup) : ((eraseKey d k).map Prod.fst).Nodup := by
  induction d with
  | nil => simp [eraseKey]
  | cons hd rest ih =>
    obtain ⟨k', v'⟩ := hd
    rw [List.map_cons] at hnd
    have hnd1 : k' ∉ rest.map Prod.fst := (List.nodup_cons.mp hnd).1
    have hnd2 : (rest.map Prod.fst).Nodup := (List.nodup_cons.mp hnd).2
    by_cases hk : k' = k
    · subst hk
      simpa [eraseKey] using hnd2
    · simp only [eraseKey, beq_iff_eq, hk, if_false, List.map_cons]
      refine List.nodup_cons.mpr ⟨?_, ih hnd2⟩
      intro hc
      exact hnd1 (keys_eraseKey_sub hc)

theorem mem_eraseKey_ne {d : Transforms} {k : String} {kv : String × PyVal}
    (hnd : (d.map Prod.fst).Nodup) (h : kv ∈ eraseKey d k) : kv.1 ≠ k := by
  induction d with
  | nil => simp [eraseKey] at h
  | cons hd rest ih =>
    obtain ⟨k', v'⟩ := hd
    rw [List.map_cons] at hnd
    have hnd1 : k' ∉ rest.map Prod.fst := (List.nodup_cons.mp hnd).1
    have hnd2 : (rest.map Prod.fst).Nodup := (List.nodup_cons.mp hnd).2
    by_cases hk : k' = k
    · subst hk
      simp only [eraseKey, beq_iff_eq, if_pos rfl] at h
      intro hc
      apply hnd1
      rw [← hc]
      exact List.mem_map_of_mem _ h
    · simp only [eraseKey, beq_iff_eq, hk, if_false] at h
      rcases List.mem_cons.mp h with he | hm
      · subst he
        exact hk
      · exact ih hnd2 hm

theorem pyGet_eraseKey_ne {d : Transforms} {k' k : String} (hne : k' ≠ k) :
    pyGet (eraseKey d k') k = pyGet d k := by
  induction d with
  | nil => simp [eraseKey]
  | cons hd rest ih =>
    obtain ⟨k0, v0⟩ := hd
    by_cases hk : k0 = k'
    · subst hk
      have : (k0 == k) = false := by
        simp [hne]
      simp [eraseKey, pyGet, this]
    · simp only [eraseKey, beq_iff_eq, hk, if_false]
      rw [pyGet, pyGet]
      by_cases h0 : k0 = k
      · simp [h0]
      · simp [h0, ih]

theorem filter_eraseKey {d : Transforms} {k : String} (p : String × PyVal → Bool)
    (hnd : (d.map Prod.fst).Nodup) :
    (eraseKey d k).filter p = d.filter (fun kv => !(kv.1 == k) && p kv) := by
  induction d with
  | nil => simp [eraseKey]
  | cons hd rest ih =>
    obtain ⟨k0, v0⟩ := hd
    rw [List.map_cons] at hnd
    have hnd1 : k0 ∉ rest.map Prod.fst := (List.nodup_cons.mp hnd).1
    have hnd2 : (rest.map Prod.fst).Nodup := (List.nodup_cons.mp hnd).2
    by_cases hk : k0 = k
    · subst hk
      -- erased entry; on the right the head is filtered out, and no other
      -- entry of rest carries key k0, so the extra conjunct is inert there
      simp only [eraseKey, beq_iff_eq, if_pos rfl, if_true, List.filter_cons]
      have : (!(k0 == k0) && p (k0, v0)) = false := by simp
      rw [this]
      simp only [Bool.false_eq_true, if_false]
      have hcongr : ∀ kv ∈ rest, (!(kv.1 == k0) && p kv) = p kv := by
        intro kv hkv
        have : kv.1 ≠ k0 := by
          intro hc
          exact hnd1 (hc ▸ List.mem_map_of_mem _ hkv)
        simp [this]
      rw [List.filter_congr hcongr]
    · simp only [eraseKey, beq_iff_eq, hk, if_false, List.filter_cons]
      have hne : (!((k0, v0).1 == k) && p (k0, v0)) = p (k0, v0) := by
        simp [hk]
      rw [hne, ih hnd2]

theorem hasAnyKey_true_iff (ks capSet : List String) :
    hasAnyKey ks capSet = true ↔ ∃ k ∈ ks, k ∈ capSet := by
  simp [hasAnyKey, List.any_eq_true]

theorem keys_subset_singleton {g : List (String × PyVal)} {k : String}
    (hnd : (g.map Prod.fst).Nodup)
    (hsub : ∀ kv ∈ g, kv.1 = k) :
    g = [] ∨ ∃ v, g = [(k, v)] := by
  cases g with
  | nil => exact Or.inl rfl
  | cons hd rest =>
    obtain ⟨k0, v0⟩ := hd
    have hk0 : k0 = k := hsub (k0, v0) (List.mem_cons_self _ _)
    subst hk0
    right
    refine ⟨v0, ?_⟩
    cases rest with
    | nil => rfl
    | cons hd2 rest2 =>
      obtain ⟨k1, v1⟩ := hd2
      have hk1 : k1 = k0 := hsub (k1, v1) (by simp)
      rw [List.map_cons] at hnd
      have hnd1 : k0 ∉ ((k1, v1) :: rest2).map Prod.fst := (List.nodup_cons.mp hnd).1
      exact absurd (by simp [hk1]) hnd1

theorem titleTransformStep_consumes (env : Env) (g2 : List (String × PyVal))
    (hnd2 : (g2.map Prod.fst).Nodup)
    (hsub : ∀ kv ∈ g2, kv.1 = "title")
    (hok : ∀ tv, pyGet g2 "title" = some tv → exceptOk (setContent env tv) = true) :
    titleTransformStep env g2 = .ok [] := by
  rcases keys_subset_singleton hnd2 hsub with hg | ⟨tv, hg⟩ <;> subst hg
  · simp [titleTransformStep, pyGet]
  · have htv : pyGet [("title", tv)] "title" = some tv := by simp [pyGet]
    have hsc := hok tv htv
    rcases hsce : setContent env tv with e | c
    · rw [hsce] at hsc
      simp [exceptOk] at hsc
    · simp [titleTransformStep, pyGet, pyDelE, hsce]

theorem exceptOk_unit {e : Except PyError Unit} (h : exceptOk e = true) : e = .ok () := by
  rcases e with e | u
  · simp [exceptOk] at h
  · cases u
    rfl

theorem groupOK_dict {env : Env} {v : PyVal} (h : groupOK env v = true) :
    ∃ g, v = PyVal.dict g := by
  cases v with
  | dict g => exact ⟨g, rfl⟩
  | str s => simp [groupOK] at h
  | int n => simp [groupOK] at h
  | list xs => simp [groupOK] at h

theorem groupOK_parts {env : Env} {g : List (String × PyVal)}
    (h : groupOK env (.dict g) = true) :
    (g.map Prod.fst).Nodup
    ∧ (∀ kv ∈ g, kv.1 = "title" ∨ kv.1 = "body" ∨ kv.1 = "left" ∨ kv.1 = "right")
    ∧ (("left" ∈ g.map Prod.fst) ↔ ("right" ∈ g.map Prod.fst))
    ∧ ¬(("left" ∈ g.map Prod.fst) ∧ ("body" ∈ g.map Prod.fst))
    ∧ ("body" ∈ g.map Prod.fst → addParagraphs env g "body" = .ok ())
    ∧ ("left" ∈ g.map Prod.fst → addLeftRight env g = .ok ())
    ∧ (∀ tv, pyGet g "title" = some tv → exceptOk (setContent env tv) = true) := by
  simp only [groupOK, Bool.and_eq_true, decide_eq_true_eq, List.all_eq_true] at h
  obtain ⟨⟨⟨⟨⟨⟨hnd, hallow⟩, hlr⟩, hlb⟩, hbody⟩, hleft⟩, htitle⟩ := h
  refine ⟨hnd, ?_, ?_, ?_, ?_, ?_, ?_⟩
  · intro kv hkv
    have hx := hallow kv.1 (List.mem_map_of_mem _ hkv)
    simpa [List.elem_iff] using hx
  · constructor
    · intro hl
      have : (List.map Prod.fst g).contains "left" = true := by
        simpa [List.elem_iff] using hl
      rw [this] at hlr
      simpa [List.elem_iff] using hlr.symm
    · intro hr
      have : (List.map Prod.fst g).contains "right" = true := by
        simpa [List.elem_iff] using hr
      rw [this] at hlr
      simpa [List.elem_iff] using hlr
  · rintro ⟨hl, hb⟩
    have h1 : (List.map Prod.fst g).contains "left" = true := by
      simpa [List.elem_iff] using hl
    have h2 : (List.map Prod.fst g).contains "body" = true := by
      simpa [List.elem_iff] using hb
    rw [h1, h2] at hlb
    simp at hlb
  · intro hb
    have h2 : (List.map Prod.fst g).contains "body" = true := by
      simpa [List.elem_iff] using hb
    rw [h2] at hbody
    simp at hbody
    exact exceptOk_unit hbody
  · intro hl
    have h1 : (List.map Prod.fst g).contains "left" = true := by
      simpa [List.elem_iff] using hl
    rw [h1] at hleft
    simp at hleft
    exact exceptOk_unit hleft
  · intro tv htv
    rw [htv] at htitle
    exact htitle

theorem bodyTransformStep_skip (env : Env) (before : Option Unit)
    (g : List (String × PyVal))
    (hb : "body" ∉ g.map Prod.fst) (hl : "left" ∉ g.map Prod.fst)
    (hr : "right" ∉ g.map Prod.fst) :
    bodyTransformStep env before g = .ok g := by
  have hAny : hasAnyKey (g.map Prod.fst) ["body", "left", "right"] = false := by
    cases hc : hasAnyKey (g.map Prod.fst) ["body", "left", "right"] with
    | false => rfl
    | true =>
      obtain ⟨k, hk, hmem⟩ := (hasAnyKey_true_iff _ _).mp hc
      simp at hmem
      rcases hmem with rfl | rfl | rfl
      · exact absurd hk hb
      · exact absurd hk hl
      · exact absurd hk hr
  simp [bodyTransformStep, hAny]

theorem bodyTransformStep_body (env : Env) (g : List (String × PyVal))
    (hl : "left" ∉ g.map Prod.fst)
    (hbmem : "body" ∈ g.map Prod.fst)
    (hps : addParagraphs env g "body" = .ok ()) :
    bodyTransformStep env (some ()) g = .ok (eraseKey g "body") := by
  have hAny : hasAnyKey (g.map Prod.fst) ["body", "left", "right"] = true :=
    (hasAnyKey_true_iff _ _).mpr ⟨"body", hbmem, by simp⟩
  have hleft : pyGet g "left" = none := pyGet_eq_none.mpr hl
  have hLR : addLeftRight env g = .error (.keyError "left") := by
    simp [addLeftRight, addParagraphs, hleft]
  have hdel : pyDelE g "body" = .ok (eraseKey g "body") := by
    rcases hgb : pyGet g "body" with _ | bv
    · exact absurd (pyGet_eq_none.mp hgb) (by simpa using hbmem)
    · exact pyDelE_present hgb
  simp [bodyTransformStep, hAny, hLR, hps, hdel]

theorem bodyTransformStep_leftright (env : Env) (g : List (String × PyVal))
    (hlmem : "left" ∈ g.map Prod.fst) (hrmem : "right" ∈ g.map Prod.fst)
    (hLR : addLeftRight env g = .ok ()) :
    bodyTransformStep env (some ()) g
      = .ok (eraseKey (eraseKey g "left") "right") := by
  have hAny : hasAnyKey (g.map Prod.fst) ["body", "left", "right"] = true :=
    (hasAnyKey_true_iff _ _).mpr ⟨"left", hlmem, by simp⟩
  have hdel1 : pyDelE g "left" = .ok (eraseKey g "left") := by
    rcases hgl : pyGet g "left" with _ | lv
    · exact absurd (pyGet_eq_none.mp hgl) (by simpa using hlmem)
    · exact pyDelE_present hgl
  have hdel2 : pyDelE (eraseKey g "left") "right"
      = .ok (eraseKey (eraseKey g "left") "right") := by
    rcases hgr : pyGet (eraseKey g "left") "right" with _ | rv
    · rw [pyGet_eraseKey_ne (by decide)] at hgr
      exact absurd (pyGet_eq_none.mp hgr) (by simpa using hrmem)
    · exact pyDelE_present hgr
  simp [bodyTransformStep, hAny, hLR, hdel1, hdel2]

theorem processArticle_skip (env : Env) (tr : Transforms) (art : Article)
    (h : pyGet tr (pyStrip art.titleText) = none) :
    processArticle env tr art = .ok tr := by
  simp [processArticle, h]

theorem processArticle_consumes (env : Env) (tr : Transforms) (art : Article)
    (gv : PyVal)
    (hget : pyGet tr (pyStrip art.titleText) = some gv)
    (hok : groupOK env gv = true)
    (hb : art.bodySearch = .ok (some ()))
    (o : Option Unit) (hr : art.returnSearch = .ok o) :
    processArticle env tr art = .ok (eraseKey tr (pyStrip art.titleText)) := by
  obtain ⟨g, rfl⟩ := groupOK_dict hok
  obtain ⟨hnd, hallow, hlr, hlb, hbody, hleft, htitle⟩ := groupOK_parts hok
  by_cases hbm : "body" ∈ g.map Prod.fst
  · have hlm : "left" ∉ g.map Prod.fst := fun hc => hlb ⟨hc, hbm⟩
    have hrm : "right" ∉ g.map Prod.fst := fun hc => hlm (hlr.mpr hc)
    have hbs := bodyTransformStep_body env g hlm hbm (hbody hbm)
    have hnd2 := @nodup_eraseKey _ "body" hnd
    have hsub2 : ∀ kv ∈ eraseKey g "body", kv.1 = "title" := by
      intro kv hkv
      have h1 := hallow kv (mem_eraseKey hkv)
      have h2 : kv.1 ≠ "body" := mem_eraseKey_ne hnd hkv
      have h3 : kv.1 ≠ "left" := fun hc =>
        hlm (hc ▸ List.mem_map_of_mem _ (mem_eraseKey hkv))
      have h4 : kv.1 ≠ "right" := fun hc =>
        hrm (hc ▸ List.mem_map_of_mem _ (mem_eraseKey hkv))
      tauto
    have hts := titleTransformStep_consumes env _ hnd2 hsub2
      (fun tv htv => htitle tv (by rwa [pyGet_eraseKey_ne (by decide)] at htv))
    simp [processArticle, hget, hb, hr, asDictKeys, hbs, hts, finishArticle,
      pyDelE_present hget]
  · by_cases hlm : "left" ∈ g.map Prod.fst
    · have hrm : "right" ∈ g.map Prod.fst := hlr.mp hlm
      have hbs := bodyTransformStep_leftright env g hlm hrm (hleft hlm)
      have hnd1 := @nodup_eraseKey _ "left" hnd
      have hnd2 := @nodup_eraseKey _ "right" hnd1
      have hsub2 : ∀ kv ∈ eraseKey (eraseKey g "left") "right", kv.1 = "title" := by
        intro kv hkv
        have hkv1 : kv ∈ eraseKey g "left" := mem_eraseKey hkv
        have h1 := hallow kv (mem_eraseKey hkv1)
        have h2 : kv.1 ≠ "right" := mem_eraseKey_ne hnd1 hkv
        have h3 : kv.1 ≠ "left" := mem_eraseKey_ne hnd hkv1
        have h4 : kv.1 ≠ "body" := fun hc =>
          hbm (hc ▸ List.mem_map_of_mem _ (mem_eraseKey hkv1))
        tauto
      have htseq : pyGet (eraseKey (eraseKey g "left") "right") "title"
          = pyGet g "title" := by
        rw [pyGet_eraseKey_ne (by decide), pyGet_eraseKey_ne (by decide)]
      have hts := titleTransformStep_consumes env _ hnd2 hsub2
        (fun tv htv => htitle tv (by rwa [htseq] at htv))
      simp [processArticle, hget, hb, hr, asDictKeys, hbs, hts, finishArticle,
        pyDelE_present hget]
    · have hrm : "right" ∉ g.map Prod.fst := fun hc => hlm (hlr.mpr hc)
      have hbs := bodyTransformStep_skip env (some ()) g hbm hlm hrm
      have hsub : ∀ kv ∈ g, kv.1 = "title" := by
        intro kv hkv
        have h1 := hallow kv hkv
        have h3 : kv.1 ≠ "left" := fun hc => hlm (hc ▸ List.mem_map_of_mem _ hkv)
        have h4 : kv.1 ≠ "right" := fun hc => hrm (hc ▸ List.mem_map_of_mem _ hkv)
        have h2 : kv.1 ≠ "body" := fun hc => hbm (hc ▸ List.mem_map_of_mem _ hkv)
        tauto
      have hts := titleTransformStep_consumes env g hnd hsub htitle
      simp [processArticle, hget, hb, hr, asDictKeys, hbs, hts, finishArticle,
        pyDelE_present hget]

theorem goArticles_filter (env : Env) (arts : List Article) :
    ∀ tr : Transforms, (tr.map Prod.fst).Nodup →
    (∀ a ∈ arts, a.bodySearch = .ok (some ()) ∧ ∃ o, a.returnSearch = .ok o) →
    (∀ kv ∈ tr, kv.1 ∈ arts.map (fun a => pyStrip a.titleText) →
        groupOK env kv.2 = true) →
    goArticles env tr arts
      = .ok (tr.filter
          (fun kv => !((arts.map (fun a => pyStrip a.titleText)).contains kv.1))) := by
  induction arts with
  | nil =>
    intro tr _ _ _
    simp [goArticles]
  | cons a rest ih =>
    intro tr hnd harts hkeys
    have ha := harts a (List.mem_cons_self _ _)
    have hartsr : ∀ x ∈ rest, x.bodySearch = .ok (some ()) ∧ ∃ o, x.returnSearch = .ok o :=
      fun x hx => harts x (List.mem_cons_of_mem _ hx)
    cases hget : pyGet tr (pyStrip a.titleText) with
    | none =>
      have hskip := processArticle_skip env tr a hget
      have hnotin : ∀ kv ∈ tr, kv.1 ≠ pyStrip a.titleText := by
        intro kv hkv hc
        exact (pyGet_eq_none.mp hget) (hc ▸ List.mem_map_of_mem _ hkv)
      rw [goArticles, hskip]
      show goArticles env tr rest = _
      rw [ih tr hnd hartsr
        (fun kv hkv hm => hkeys kv hkv (by simp [List.mem_cons]; right; simpa using hm))]
      congr 1
      apply List.filter_congr
      intro kv hkv
      have hne := hnotin kv hkv
      simp [hne]
    | some gv =>
      have hgok : groupOK env gv = true :=
        hkeys (pyStrip a.titleText, gv) (pyGet_some_mem hget) (by simp)
      obtain ⟨hbs, o, hrs⟩ := ha
      have hcons := processArticle_consumes env tr a gv hget hgok hbs o hrs
      rw [goArticles, hcons]
      show goArticles env (eraseKey tr (pyStrip a.titleText)) rest = _
      rw [ih (eraseKey tr (pyStrip a.titleText)) (nodup_eraseKey hnd) hartsr
        (fun kv hkv hm =>
          hkeys kv (mem_eraseKey hkv) (by simp [List.mem_cons]; right; simpa using hm))]
      rw [filter_eraseKey _ hnd]
      congr 1
      apply List.filter_congr
      intro kv _
      by_cases h1 : kv.1 = pyStrip a.titleText <;>
        by_cases h2 : ∃ x ∈ rest, pyStrip x.titleText = kv.1 <;>
          simp [h1, h2, List.contains_cons, Bool.not_or, beq_eq_decide]

theorem applyTop_skip (env : Env) (doc : ApplyDoc) (tr : Transforms)
    (h : pyGet tr "top" = none) : applyTop env doc tr = .ok tr := by
  simp [applyTop, h]

theorem topOK_dict {env : Env} {v : PyVal} (h : topOK env v = true) :
    ∃ g, v = PyVal.dict g := by
  cases v with
  | dict g => exact ⟨g, rfl⟩
  | str s => simp [topOK] at h
  | int n => simp [topOK] at h
  | list xs => simp [topOK] at h

theorem applyTop_consumes (env : Env) (doc : ApplyDoc) (tr : Transforms)
    (topv : PyVal)
    (hget : pyGet tr "top" = some topv)
    (hm : doc.mastheadFound = true)
    (hok : topOK env topv = true) :
    applyTop env doc tr = .ok (eraseKey tr "top") := by
  obtain ⟨tg, rfl⟩ := topOK_dict hok
  simp only [topOK, Bool.and_eq_true] at hok
  obtain ⟨himg, hcap⟩ := hok
  rcases hti : pyGet tg "image" with _ | iv
  · simp [hti] at himg
  · simp only [hti] at himg
    rcases iv with s | n | xs | xd
    · rcases htc : pyGet tg "caption" with _ | cv
      · simp [htc] at hcap
      · simp only [htc] at hcap
        rcases hsc : setContent env cv with e | c
        · simp [hsc, exceptOk] at hcap
        · simp [applyTop, hget, hm, asDict, hti, htc, hsc, pyDelE_present hget]
    · simp at himg
    · simp at himg
    · simp at himg

/-- C9: under a well-formed specification (unique keys; a `top` entry only
with the masthead present and a complete image+caption group; every other
key either naming an article of the document with a fully-described,
compilable group, or matching no article at all), `apply` succeeds and
returns exactly the entries whose key matched nothing, untouched and in
order.  In particular a fully-matched specification leaves an empty
remainder, and one unknown key is returned exactly as given. -/
theorem applyTransforms_remainder (env : Env) (doc : ApplyDoc) (tr : Transforms)
    (hnd : (tr.map Prod.fst).Nodup)
    (harts : ∀ a ∈ doc.articles,
        a.bodySearch = .ok (some ()) ∧ ∃ o, a.returnSearch = .ok o)
    (htop : ∀ kv ∈ tr, kv.1 = "top" →
        doc.mastheadFound = true ∧ topOK env kv.2 = true)
    (hkeys : ∀ kv ∈ tr, kv.1 ≠ "top" → kv.1 ∈ docTitles doc →
        groupOK env kv.2 = true) :
    applyTransforms env doc tr
      = .ok (tr.filter
          (fun kv => !(kv.1 == "top") && !((docTitles doc).contains kv.1))) := by
  cases hget : pyGet tr "top" with
  | none =>
    have hne : ∀ kv ∈ tr, kv.1 ≠ "top" := by
      intro kv hkv hc
      exact (pyGet_eq_none.mp hget) (hc ▸ List.mem_map_of_mem _ hkv)
    rw [applyTransforms, applyTop_skip env doc tr hget]
    show goArticles env tr doc.articles = _
    rw [goArticles_filter env doc.articles tr hnd harts
      (fun kv hkv hm => hkeys kv hkv (hne kv hkv) hm)]
    congr 1
    apply List.filter_congr
    intro kv hkv
    have h1 : (kv.1 == "top") = false := by
      simpa using hne kv hkv
    simp [h1, docTitles]
  | some topv =>
    obtain ⟨hm, hok⟩ := htop ("top", topv) (pyGet_some_mem hget) rfl
    rw [applyTransforms, applyTop_consumes env doc tr topv hget hm hok]
    show goArticles env (eraseKey tr "top") doc.articles = _
    rw [goArticles_filter env doc.articles (eraseKey tr "top") (nodup_eraseKey hnd) harts
      (fun kv hkv hm =>
        hkeys kv (mem_eraseKey hkv) (mem_eraseKey_ne hnd hkv) hm)]
    rw [filter_eraseKey _ hnd]
    rfl

/-- Witness for C9: one matched article entry is consumed, one unknown key
is returned untouched. -/
theorem applyTransforms_remainder_witness :
    applyTransforms noopEnv ⟨true, [⟨"A", .ok (some ()), .ok none⟩]⟩
        [("A", .dict [("body", .list [.str "hi"])]), ("Zed", .str "x")]
      = .ok [("Zed", .str "x")] := by
  have hh := applyTransforms_remainder noopEnv ⟨true, [⟨"A", .ok (some ()), .ok none⟩]⟩
    [("A", .dict [("body", .list [.str "hi"])]), ("Zed", .str "x")]
    (by decide)
    (by
      intro a ha
      simp at ha
      subst ha
      exact ⟨rfl, none, rfl⟩)
    (by
      intro kv hkv hc
      simp at hkv
      rcases hkv with hkv | hkv <;> subst hkv <;> simp at hc)
    (by
      intro kv hkv hne hmem
      simp at hkv
      rcases hkv with hkv | hkv <;> subst hkv
      · simp [groupOK, addParagraphs, addLeftRight, compileParas, setContent, compileItem,
          pyGet, pyStr, exceptOk]
      · simp [docTitles, pyStrip, isPySpace] at hmem
        exact absurd hmem (by decide))
  simpa using hh

end IITech3
